import Mathlib

set_option maxRecDepth 1000000
set_option maxHeartbeats 2000000

/-!
Verification of the medical-records analyzer core: a shallow embedding of
the text pipeline in src/services/medicalExtractionService.ts and of the
evidence locator in src/services/llmService.ts (server variant) and
src/pages/student/StudentMediAnalyzer.tsx (client variant).

Strings are modelled as lists of characters; JavaScript regular
expressions are modelled by a small backtracking engine (below) whose
patterns transcribe the source regexes one for one.
-/

namespace MRA

/-- Convert a string literal to the character-list representation. -/
def lc (s : String) : List Char := s.data

/-- JavaScript whitespace class for the inputs in scope. -/
def isWS (c : Char) : Bool :=
  c = ' ' || c = '\t' || c = '\n' || c = '\r' || c = '\x0b' || c = '\x0c'

/-- JavaScript String.prototype.trim. -/
def trimL (l : List Char) : List Char :=
  ((l.dropWhile isWS).reverse.dropWhile isWS).reverse

/-- JavaScript String.prototype.toLowerCase (ASCII range). -/
def toLowerL (l : List Char) : List Char := l.map Char.toLower

/-- Worker for split on a newline: JavaScript text.split with a newline. -/
def splitNlGo : List Char → List Char → List (List Char)
  | [], cur => [cur.reverse]
  | c :: cs, cur =>
    if c = '\n' then cur.reverse :: splitNlGo cs [] else splitNlGo cs (c :: cur)

/-- JavaScript text.split on a newline character. -/
def splitNl (l : List Char) : List (List Char) := splitNlGo l []

/-- Worker for split on whitespace runs, as JavaScript split with a
whitespace-plus regex: empty fields appear at the borders. The Boolean
records whether the previous character belonged to a whitespace run. -/
def splitWsGo : List Char → List Char → Bool → List (List Char)
  | [], cur, _ => [cur.reverse]
  | c :: cs, cur, inRun =>
    if isWS c then
      if inRun then splitWsGo cs cur true
      else cur.reverse :: splitWsGo cs [] true
    else splitWsGo cs (c :: cur) false

/-- JavaScript query.split on a whitespace-run regex. -/
def splitWs (l : List Char) : List (List Char) := splitWsGo l [] false

/-- Prefix test on character lists. -/
def isPrefixB : List Char → List Char → Bool
  | [], _ => true
  | _ :: _, [] => false
  | a :: as, b :: bs => (a == b) && isPrefixB as bs

/-- Substring test: JavaScript String.prototype.includes. -/
def subL : List Char → List Char → Bool
  | needle, [] => needle.isEmpty
  | needle, b :: hs => isPrefixB needle (b :: hs) || subL needle hs

/-- Worker for first-occurrence deduplication with a seen accumulator. -/
def jsSetDedupGo : List (List Char) → List (List Char) → List (List Char)
  | [], _ => []
  | x :: xs, seen =>
    if seen.contains x then jsSetDedupGo xs seen
    else x :: jsSetDedupGo xs (x :: seen)

/-- First-occurrence deduplication, as building a JavaScript Set from a
list and spreading it back. -/
def jsSetDedup (l : List (List Char)) : List (List Char) := jsSetDedupGo l []

/-! ### Evidence locator (llmService.ts, findRelevantEvidence) -/

/-- MedicalRecord fields used by the evidence locator. -/
structure MedicalRecord where
  documentType : List Char
  date : List Char
  fileName : List Char
  text : List Char
deriving DecidableEq

/-- The evidence entry of LLMResponse in llmService.ts. -/
structure EvidenceItem where
  documentType : List Char
  date : List Char
  snippet : List Char
deriving DecidableEq

/-- The typeLabels lookup with fallback to the raw document type. -/
def typeLabel (t : List Char) : List Char :=
  if t = lc "blood-report" then lc "Blood Report"
  else if t = lc "prescription" then lc "Prescription"
  else if t = lc "scan" then lc "Scan/Imaging Report"
  else if t = lc "receipt" then lc "Medical Receipt"
  else t

/-- allTerms: deduplicated lowercase tokens of query and answer. -/
def allTermsOf (query answer : List Char) : List (List Char) :=
  jsSetDedup (splitWs (toLowerL query) ++ splitWs (toLowerL answer))

/-- A line is accepted when some term longer than three characters occurs
in its lowercase form and its trimmed length exceeds ten. -/
def candLine (terms : List (List Char)) (line : List Char) : Bool :=
  terms.any (fun term => decide (3 < term.length) && subL term (toLowerL line))
    && decide (10 < (trimL line).length)

/-- The non-blank lines of a record text. -/
def recLines (text : List Char) : List (List Char) :=
  (splitNl text).filter (fun l => !(trimL l).isEmpty)

/-- Build one server-side evidence item from an accepted line. -/
def mkEvidence (r : MedicalRecord) (line : List Char) : EvidenceItem :=
  { documentType := typeLabel r.documentType
    date := r.date
    snippet := (trimL line).take 200 }

/-- Inner loop over the lines of one record: push accepted lines and stop
as soon as the cap is reached. -/
def scanLines (cap : Nat) (r : MedicalRecord) (terms : List (List Char)) :
    List (List Char) → List EvidenceItem → List EvidenceItem
  | [], acc => acc
  | line :: rest, acc =>
    if candLine terms line then
      if cap ≤ (acc ++ [mkEvidence r line]).length then acc ++ [mkEvidence r line]
      else scanLines cap r terms rest (acc ++ [mkEvidence r line])
    else scanLines cap r terms rest acc

/-- Outer loop over the records, stopping at the cap. -/
def scanRecords (cap : Nat) (terms : List (List Char)) :
    List MedicalRecord → List EvidenceItem → List EvidenceItem
  | [], acc => acc
  | r :: rs, acc =>
    if cap ≤ (scanLines cap r terms (recLines r.text) acc).length then
      scanLines cap r terms (recLines r.text) acc
    else scanRecords cap terms rs (scanLines cap r terms (recLines r.text) acc)

/-- findRelevantEvidence of llmService.ts: cap of five items. -/
def findRelevantEvidence (records : List MedicalRecord) (query answer : List Char) :
    List EvidenceItem :=
  scanRecords 5 (allTermsOf query answer) records []

/-! ### Evidence locator, client copy (StudentMediAnalyzer.tsx, findEvidence) -/

/-- The report rows the client chat view loads from the store. -/
structure Report where
  id : List Char
  fileUrl : List Char
  fileName : Option (List Char)
  ocrText : Option (List Char)
deriving DecidableEq

/-- The evidence entry of a client chat message. -/
structure ClientEvidence where
  reportId : List Char
  fileName : List Char
  fileUrl : List Char
  snippet : List Char
deriving DecidableEq

/-- Build one client evidence item: fileName falls back to a label when
null or empty, and the snippet cap is 150. -/
def mkClientEvidence (r : Report) (line : List Char) : ClientEvidence :=
  { reportId := r.id
    fileName := match r.fileName with
      | some n => if n = [] then lc "Document" else n
      | none => lc "Document"
    fileUrl := r.fileUrl
    snippet := (trimL line).take 150 }

/-- Client inner loop over the lines of one report, cap-bounded. -/
def scanLinesC (cap : Nat) (r : Report) (terms : List (List Char)) :
    List (List Char) → List ClientEvidence → List ClientEvidence
  | [], acc => acc
  | line :: rest, acc =>
    if candLine terms line then
      if cap ≤ (acc ++ [mkClientEvidence r line]).length then acc ++ [mkClientEvidence r line]
      else scanLinesC cap r terms rest (acc ++ [mkClientEvidence r line])
    else scanLinesC cap r terms rest acc

/-- Client outer loop: a report with null or empty ocrText is skipped. -/
def scanReportsC (cap : Nat) (terms : List (List Char)) :
    List Report → List ClientEvidence → List ClientEvidence
  | [], acc => acc
  | r :: rs, acc =>
    match r.ocrText with
    | none => scanReportsC cap terms rs acc
    | some t =>
      if t = [] then scanReportsC cap terms rs acc
      else
        if cap ≤ (scanLinesC cap r terms (recLines t) acc).length then
          scanLinesC cap r terms (recLines t) acc
        else scanReportsC cap terms rs (scanLinesC cap r terms (recLines t) acc)

/-- findEvidence of StudentMediAnalyzer.tsx: cap of three items. -/
def findEvidence (reports : List Report) (query answer : List Char) :
    List ClientEvidence :=
  scanReportsC 3 (allTermsOf query answer) reports []

/-! ### A small backtracking engine for the JavaScript regexes

The source regexes use literals, character classes, greedy repetition
over a class, alternation, option, capture groups, word boundaries, one
digit lookbehind and two lookaheads. Each construct is modelled here;
each source regex is transcribed below one for one. -/

/-- Character classes occurring in the source regexes. -/
inductive CC where
  | lit (c : Char)
  | anyOf (cs : List Char)
  | digit
  | notDigit
  | ws
  | alphaLow
  | alphaAny
  | union (a b : CC)
deriving DecidableEq

/-- Case folding used by the regex i flag. -/
def ciChar (ci : Bool) (c : Char) : Char := if ci then c.toLower else c

/-- Does a character match a class, honouring the i flag. -/
def ccMatch (ci : Bool) : CC → Char → Bool
  | .lit c, x => ciChar ci x == ciChar ci c
  | .anyOf cs, x => cs.any (fun c => ciChar ci x == ciChar ci c)
  | .digit, x => x.isDigit
  | .notDigit, x => !x.isDigit
  | .ws, x => isWS x
  | .alphaLow, x => decide ('a' ≤ ciChar ci x) && decide (ciChar ci x ≤ 'z')
  | .alphaAny, x =>
    (decide ('a' ≤ x) && decide (x ≤ 'z')) || (decide ('A' ≤ x) && decide (x ≤ 'Z'))
  | .union a b, x => ccMatch ci a x || ccMatch ci b x

/-- Regex syntax. rep is greedy repetition of a class between lo and an
optional hi; opt is a greedy option; la is a positive lookahead; lbDigit
is the digit lookbehind; eos is the dollar anchor. -/
inductive RE where
  | eps
  | str (s : List Char)
  | cls (c : CC)
  | rep (c : CC) (lo : Nat) (hi : Option Nat)
  | seq (a b : RE)
  | alt (a b : RE)
  | opt (a : RE)
  | grp (i : Nat) (a : RE)
  | wb
  | la (a : RE)
  | lbDigit
  | eos
deriving DecidableEq

/-- Sequencing of a pattern list. -/
def cat : List RE → RE
  | [] => .eps
  | [r] => r
  | r :: rs => .seq r (cat rs)

/-- Ordered alternation of a pattern list. -/
def altL : List RE → RE
  | [] => .eps
  | [r] => r
  | r :: rs => .alt r (altL rs)

/-- String literal pattern. -/
def sP (x : String) : RE := .str (lc x)

/-- Captured groups: index and captured characters, most recent first. -/
abbrev Groups := List (Nat × List Char)

/-- Matcher state: left context reversed, remaining input, groups. -/
abbrev MSt : Type := List Char × List Char × Groups

/-- JavaScript word characters. -/
def isWordChar (c : Char) : Bool := c.isAlphanum || c == '_'

/-- Word boundary between the reversed left context and the rest. -/
def atWB (l r : List Char) : Bool :=
  (match l with | [] => false | c :: _ => isWordChar c) !=
    (match r with | [] => false | c :: _ => isWordChar c)

/-- Does the input start with the literal, honouring the i flag. -/
def strOk (ci : Bool) : List Char → List Char → Bool
  | [], _ => true
  | _ :: _, [] => false
  | a :: as, b :: bs => (ciChar ci b == ciChar ci a) && strOk ci as bs

/-- Length of the maximal class-matching prefix run. -/
def ccRun (ci : Bool) (c : CC) : List Char → Nat
  | [] => 0
  | x :: r => if ccMatch ci c x then ccRun ci c r + 1 else 0

/-- Greedy repetition: try consuming n characters, then fewer, down to
lo. The caller guarantees n is at most the class run length. -/
def repTry (k : List Char → List Char → Groups → Option MSt)
    (l r : List Char) (g : Groups) (lo : Nat) : Nat → Option MSt
  | 0 => if lo = 0 then k l r g else none
  | n + 1 =>
    if lo ≤ n + 1 then
      match k ((r.take (n + 1)).reverse ++ l) (r.drop (n + 1)) g with
      | some out => some out
      | none => repTry k l r g lo n
    else none

/-- Backtracking matcher in continuation style. The continuation receives
the new reversed left context, the remaining input and the groups. -/
def reM (ci : Bool) : RE → List Char → List Char → Groups →
    (List Char → List Char → Groups → Option MSt) → Option MSt
  | .eps, l, r, g, k => k l r g
  | .str s, l, r, g, k =>
    if strOk ci s r then k ((r.take s.length).reverse ++ l) (r.drop s.length) g else none
  | .cls c, l, r, g, k =>
    match r with
    | [] => none
    | x :: rs => if ccMatch ci c x then k (x :: l) rs g else none
  | .rep c lo hi, l, r, g, k =>
    repTry k l r g lo (match hi with | none => ccRun ci c r | some h => min (ccRun ci c r) h)
  | .seq a b, l, r, g, k => reM ci a l r g (fun l2 r2 g2 => reM ci b l2 r2 g2 k)
  | .alt a b, l, r, g, k =>
    match reM ci a l r g k with
    | some out => some out
    | none => reM ci b l r g k
  | .opt a, l, r, g, k =>
    match reM ci a l r g k with
    | some out => some out
    | none => k l r g
  | .grp i a, l, r, g, k =>
    reM ci a l r g (fun l2 r2 g2 => k l2 r2 ((i, (l2.take (l2.length - l.length)).reverse) :: g2))
  | .wb, l, r, g, k => if atWB l r then k l r g else none
  | .la a, l, r, g, k =>
    match reM ci a l r g (fun l2 r2 g2 => some (l2, r2, g2)) with
    | some _ => k l r g
    | none => none
  | .lbDigit, l, r, g, k =>
    match l with
    | c :: _ => if c.isDigit then k l r g else none
    | [] => none
  | .eos, l, r, g, k =>
    match r with
    | [] => k l r g
    | _ :: _ => none

/-- Try a full match of the pattern at the current position. -/
def tryAt (ci : Bool) (re : RE) (l r : List Char) : Option MSt :=
  reM ci re l r [] (fun l2 r2 g2 => some (l2, r2, g2))

/-- Scan left to right for the first position where the pattern matches;
returns the reversed left context of the match start and the final
state. -/
def reSearch (ci : Bool) (re : RE) : List Char → List Char → Option (List Char × MSt)
  | l, [] =>
    match tryAt ci re l [] with
    | some st => some (l, st)
    | none => none
  | l, c :: rs =>
    match tryAt ci re l (c :: rs) with
    | some st => some (l, st)
    | none => reSearch ci re (c :: l) rs

/-- Result of JavaScript text.match: full match, groups, rest. -/
structure JsMatch where
  m0 : List Char
  groups : Groups
  post : List Char
deriving DecidableEq

/-- Group access with the empty string for an absent group. -/
def gFind (g : Groups) (i : Nat) : List Char :=
  match g.find? (fun p => p.1 == i) with
  | some p => p.2
  | none => []

/-- JavaScript text.match with a non-global regex. -/
def jsMatch (ci : Bool) (re : RE) (text : List Char) : Option JsMatch :=
  match reSearch ci re [] text with
  | none => none
  | some (l0, l2, r2, g) => some ⟨(l2.take (l2.length - l0.length)).reverse, g, r2⟩

/-- Group access on a match result. -/
def grpD (m : JsMatch) (i : Nat) : List Char := gFind m.groups i

/-- Worker for global replace, with fuel bounding the scan steps. -/
def replGo (ci : Bool) (re : RE) (tmpl : Groups → List Char) :
    Nat → List Char → List Char → List Char → List Char
  | 0, _, r, acc => acc ++ r
  | _ + 1, l, [], acc =>
    match tryAt ci re l [] with
    | some (_, _, g) => acc ++ tmpl g
    | none => acc
  | fuel + 1, l, c :: rs, acc =>
    match tryAt ci re l (c :: rs) with
    | some (l2, r2, g) =>
      if l2.length = l.length then replGo ci re tmpl fuel (c :: l) rs (acc ++ tmpl g ++ [c])
      else replGo ci re tmpl fuel l2 r2 (acc ++ tmpl g)
    | none => replGo ci re tmpl fuel (c :: l) rs (acc ++ [c])

/-- JavaScript text.replace with a global regex, replacement built from
the groups of each match. -/
def replaceAll (ci : Bool) (re : RE) (tmpl : Groups → List Char) (text : List Char) :
    List Char :=
  replGo ci re tmpl (text.length + 1) [] text []

/-- Worker for the global exec loop, with fuel. -/
def execGo (ci : Bool) (re : RE) : Nat → List Char → List Char → List JsMatch
  | 0, _, _ => []
  | fuel + 1, l, r =>
    match reSearch ci re l r with
    | none => []
    | some (l0, l2, r2, g) =>
      if l2.length = l0.length then
        match r2 with
        | [] => [⟨(l2.take (l2.length - l0.length)).reverse, g, r2⟩]
        | c :: rs =>
          ⟨(l2.take (l2.length - l0.length)).reverse, g, r2⟩ :: execGo ci re fuel (c :: l2) rs
      else ⟨(l2.take (l2.length - l0.length)).reverse, g, r2⟩ :: execGo ci re fuel l2 r2

/-- All matches of a global regex, as the JavaScript exec loop yields
them. -/
def execAll (ci : Bool) (re : RE) (text : List Char) : List JsMatch :=
  execGo ci re (text.length + 1) [] text

/-! ### Semantic characterization of the engine, for the universal
claims: which character lists a pattern can consume, and syntactic
bounds on captured groups. -/

/-- Pairwise equality of character lists up to the i flag. -/
def ciEqL (ci : Bool) : List Char → List Char → Bool
  | [], [] => true
  | a :: as, b :: bs => (ciChar ci a == ciChar ci b) && ciEqL ci as bs
  | _, _ => false

/-- The character lists a pattern can consume. Assertions consume
nothing. -/
inductive Matches (ci : Bool) : RE → List Char → Prop where
  | eps : Matches ci .eps []
  | str (s d : List Char) : ciEqL ci d s = true → Matches ci (.str s) d
  | cls (c : CC) (x : Char) : ccMatch ci c x = true → Matches ci (.cls c) [x]
  | rep (c : CC) (lo : Nat) (hi : Option Nat) (d : List Char) :
      d.all (ccMatch ci c) = true → lo ≤ d.length →
      (∀ h, hi = some h → d.length ≤ h) → Matches ci (.rep c lo hi) d
  | seq (a b : RE) (d₁ d₂ : List Char) :
      Matches ci a d₁ → Matches ci b d₂ → Matches ci (.seq a b) (d₁ ++ d₂)
  | altA (a b : RE) (d : List Char) : Matches ci a d → Matches ci (.alt a b) d
  | altB (a b : RE) (d : List Char) : Matches ci b d → Matches ci (.alt a b) d
  | optS (a : RE) (d : List Char) : Matches ci a d → Matches ci (.opt a) d
  | optN (a : RE) : Matches ci (.opt a) []
  | grp (i : Nat) (a : RE) (d : List Char) : Matches ci a d → Matches ci (.grp i a) d
  | wb : Matches ci .wb []
  | la (a : RE) : Matches ci (.la a) []
  | lb : Matches ci .lbDigit []
  | eos : Matches ci .eos []

/-- Group indices and bodies occurring in a pattern. -/
def groupsOf : RE → List (Nat × RE)
  | .seq a b => groupsOf a ++ groupsOf b
  | .alt a b => groupsOf a ++ groupsOf b
  | .opt a => groupsOf a
  | .grp i a => (i, a) :: groupsOf a
  | .la a => groupsOf a
  | _ => []

/-- Group indices captured on every successful match. -/
def mandG : RE → List Nat
  | .seq a b => mandG a ++ mandG b
  | .alt a b => (mandG a).filter (fun i => decide (i ∈ mandG b))
  | .grp i a => i :: mandG a
  | _ => []

/-- Least number of characters any match consumes. -/
def minLenRE : RE → Nat
  | .str s => s.length
  | .cls _ => 1
  | .rep _ lo _ => lo
  | .seq a b => minLenRE a + minLenRE b
  | .alt a b => min (minLenRE a) (minLenRE b)
  | .grp _ a => minLenRE a
  | _ => 0

/-- Greatest number of characters any match consumes, when bounded. -/
def maxLenRE : RE → Option Nat
  | .str s => some s.length
  | .cls _ => some 1
  | .rep _ _ hi => hi
  | .seq a b =>
    match maxLenRE a, maxLenRE b with
    | some x, some y => some (x + y)
    | _, _ => none
  | .alt a b =>
    match maxLenRE a, maxLenRE b with
    | some x, some y => some (max x y)
    | _, _ => none
  | .opt a => maxLenRE a
  | .grp _ a => maxLenRE a
  | _ => some 0

/-- Is the class exactly the digit class. -/
def ccDigitOnly : CC → Bool
  | .digit => true
  | _ => false

/-- Does every match of the pattern consist of digits only. -/
def allDigitRE : RE → Bool
  | .eps => true
  | .str _ => false
  | .cls c => ccDigitOnly c
  | .rep c _ _ => ccDigitOnly c
  | .seq a b => allDigitRE a && allDigitRE b
  | .alt a b => allDigitRE a && allDigitRE b
  | .opt a => allDigitRE a
  | .grp _ a => allDigitRE a
  | .wb => true
  | .la _ => true
  | .lbDigit => true
  | .eos => true

/-! ### The data model of medicalExtractionService.ts -/

/-- The type tag of a MedicalFact. -/
inductive FactType where
  | laboratory_value
  | vital
  | diagnosis
  | medication
  | blood_group
  | allergy
  | test
  | patient_info
deriving DecidableEq

/-- Confidence grade of a MedicalFact. -/
inductive Confidence where
  | high
  | medium
  | low
deriving DecidableEq

/-- One extracted medical fact. -/
structure MedicalFact where
  type : FactType
  name : List Char
  value : List Char
  unit : List Char
  confidence : Confidence
  interpretation_reason : List Char
deriving DecidableEq

/-- Document categories. -/
inductive DocumentType where
  | blood_report
  | prescription
  | scan
  | receipt
  | unknown
deriving DecidableEq

/-- The per-document output envelope. -/
structure ExtractedMedicalData where
  document_type : DocumentType
  report_date : Option (List Char)
  extracted_facts : List MedicalFact
  corrected_text : List Char
deriving DecidableEq

/-! ### Common pattern pieces -/

/-- Whitespace star. -/
def wsS : RE := .rep .ws 0 none

/-- Colon-or-whitespace star. -/
def colonWsS : RE := .rep (.union (.lit ':') .ws) 0 none

/-- One or more digits. -/
def digP : RE := .rep .digit 1 none

/-- A decimal number: digits, optional point, digits. -/
def numRE : RE := cat [digP, .opt (.cls (.lit '.')), .rep .digit 0 none]

/-- One or two digits. -/
def d12 : RE := .rep .digit 1 (some 2)

/-- Exactly four digits. -/
def d4 : RE := .rep .digit 4 (some 4)

/-! ### OCR error correction (correctOCRErrors) -/

/-- Class o-or-zero. -/
def o0 : RE := .cls (.anyOf (lc "o0"))

/-- Class e-or-three. -/
def e3 : RE := .cls (.anyOf (lc "e3"))

/-- Blood-group context with a zero-like glyph, groups around it. -/
def ocrBgCtx : RE :=
  cat [.wb,
    .grp 1 (cat [sP "blood", wsS, .alt (sP "group") (sP "type"), colonWsS]),
    .cls (.anyOf (lc "°0")),
    .grp 2 (cat [wsS, altL [sP "positive", sP "negative", sP "+", sP "-"]])]

/-- Zero-like glyph before positive. -/
def ocrZeroPos : RE :=
  cat [.wb, .cls (.anyOf (lc "°0")), wsS, .alt (sP "positive") (sP "+"), .wb]

/-- Zero-like glyph before negative. -/
def ocrZeroNeg : RE :=
  cat [.wb, .cls (.anyOf (lc "°0")), wsS, .alt (sP "negative") (sP "-"), .wb]

/-- Letter l before a digit. -/
def ocrLDigit : RE := cat [.wb, .cls (.lit 'l'), wsS, .la (.cls .digit)]

/-- Stray o after a digit. -/
def ocrODigit : RE :=
  cat [.lbDigit, wsS, .cls (.anyOf (lc "oO")), .la (altL [.cls .ws, .eos, .cls .notDigit])]

/-- Rh positive spellings. -/
def ocrRhPos : RE :=
  cat [.wb, sP "rh", wsS, .opt (sP "factor"), wsS, colonWsS,
    altL [sP "pos", sP "positive", sP "+"]]

/-- Rh negative spellings. -/
def ocrRhNeg : RE :=
  cat [.wb, sP "rh", wsS, .opt (sP "factor"), wsS, colonWsS,
    altL [sP "neg", sP "negative", sP "-"]]

/-- Degrees Fahrenheit notation. -/
def ocrTempF : RE :=
  cat [.grp 1 numRE, wsS, .cls (.anyOf (lc "°º")), wsS, .cls (.anyOf (lc "fF"))]

/-- Degrees Celsius notation. -/
def ocrTempC : RE :=
  cat [.grp 1 numRE, wsS, .cls (.anyOf (lc "°º")), wsS, .cls (.anyOf (lc "cC"))]

/-- Hemoglobin with digit-for-letter misreads. -/
def ocrHemo : RE := cat [sP "hem", o0, sP "gl", o0, sP "bin"]

/-- Platelets with digit-for-letter misreads. -/
def ocrPlat : RE := cat [sP "plat", e3, sP "l", e3, sP "t", .opt (sP "s")]

/-- Glucose with digit-for-letter misreads. -/
def ocrGluc : RE := cat [sP "gl", .cls (.anyOf (lc "u0")), sP "c", o0, sP "se"]

/-- Cholesterol with digit-for-letter misreads. -/
def ocrChol : RE := cat [sP "ch", o0, sP "lester", o0, sP "l"]

/-- correctOCRErrors of medicalExtractionService.ts: the replacement
passes in source order. -/
def correctOCRErrors (text : List Char) : List Char :=
  let t := replaceAll true ocrBgCtx (fun g => gFind g 1 ++ lc "O" ++ gFind g 2) text
  let t := replaceAll true ocrZeroPos (fun _ => lc "O Positive") t
  let t := replaceAll true ocrZeroNeg (fun _ => lc "O Negative") t
  let t := replaceAll true ocrLDigit (fun _ => lc "1") t
  let t := replaceAll false ocrODigit (fun _ => lc "0") t
  let t := replaceAll true ocrRhPos (fun _ => lc "Rh Positive") t
  let t := replaceAll true ocrRhNeg (fun _ => lc "Rh Negative") t
  let t := replaceAll false ocrTempF (fun g => gFind g 1 ++ lc "°F") t
  let t := replaceAll false ocrTempC (fun g => gFind g 1 ++ lc "°C") t
  let t := replaceAll true ocrHemo (fun _ => lc "Hemoglobin") t
  let t := replaceAll true ocrPlat (fun _ => lc "Platelets") t
  let t := replaceAll true ocrGluc (fun _ => lc "Glucose") t
  let t := replaceAll true ocrChol (fun _ => lc "Cholesterol") t
  t

/-! ### Abbreviation expansion and unit normalization -/

/-- The ABBREVIATIONS table, in source order. -/
def ABBREVIATIONS : List (List Char × List Char) :=
  [(lc "hb", lc "Hemoglobin"), (lc "hgb", lc "Hemoglobin"), (lc "bp", lc "Blood Pressure"),
   (lc "fbs", lc "Fasting Blood Sugar"), (lc "rbs", lc "Random Blood Sugar"),
   (lc "ppbs", lc "Post Prandial Blood Sugar"), (lc "wbc", lc "White Blood Cell Count"),
   (lc "rbc", lc "Red Blood Cell Count"), (lc "plt", lc "Platelet Count"),
   (lc "esr", lc "Erythrocyte Sedimentation Rate"), (lc "hba1c", lc "Glycated Hemoglobin"),
   (lc "ldl", lc "Low Density Lipoprotein"), (lc "hdl", lc "High Density Lipoprotein"),
   (lc "tsh", lc "Thyroid Stimulating Hormone"), (lc "t3", lc "Triiodothyronine"),
   (lc "t4", lc "Thyroxine"), (lc "sgpt", lc "Serum Glutamic Pyruvic Transaminase"),
   (lc "sgot", lc "Serum Glutamic Oxaloacetic Transaminase"),
   (lc "alt", lc "Alanine Aminotransferase"), (lc "ast", lc "Aspartate Aminotransferase"),
   (lc "bun", lc "Blood Urea Nitrogen"), (lc "mcv", lc "Mean Corpuscular Volume"),
   (lc "mch", lc "Mean Corpuscular Hemoglobin"),
   (lc "mchc", lc "Mean Corpuscular Hemoglobin Concentration"),
   (lc "rdw", lc "Red Cell Distribution Width"), (lc "mpv", lc "Mean Platelet Volume"),
   (lc "pcv", lc "Packed Cell Volume"), (lc "hct", lc "Hematocrit"),
   (lc "crp", lc "C-Reactive Protein"), (lc "bnp", lc "B-type Natriuretic Peptide"),
   (lc "psa", lc "Prostate Specific Antigen"), (lc "ecg", lc "Electrocardiogram"),
   (lc "ekg", lc "Electrocardiogram"), (lc "ct", lc "Computed Tomography"),
   (lc "mri", lc "Magnetic Resonance Imaging"), (lc "usg", lc "Ultrasonography")]

/-- expandAbbreviations: whole-word case-insensitive replacement of each
table entry, in table order. -/
def expandAbbreviations (text : List Char) : List Char :=
  ABBREVIATIONS.foldl
    (fun t p => replaceAll true (cat [.wb, .str p.1, .wb]) (fun _ => p.2) t) text

/-- The UNIT_NORMALIZATIONS table, in source order. -/
def UNIT_NORMALIZATIONS : List (List Char × List Char) :=
  [(lc "mg%", lc "mg/dL"), (lc "gm%", lc "g/dL"), (lc "gm/dl", lc "g/dL"),
   (lc "mg/dl", lc "mg/dL"), (lc "mmol/l", lc "mmol/L"), (lc "iu/l", lc "IU/L"),
   (lc "u/l", lc "U/L"), (lc "cells/cumm", lc "cells/cu.mm"), (lc "cells/ul", lc "cells/µL"),
   (lc "/cumm", lc "/cu.mm"), (lc "mm/hr", lc "mm/hr"), (lc "sec", lc "seconds"),
   (lc "secs", lc "seconds")]

/-- normalizeUnits: case-insensitive literal replacement of each table
entry, in table order. -/
def normalizeUnits (text : List Char) : List Char :=
  UNIT_NORMALIZATIONS.foldl
    (fun t p => replaceAll true (.str p.1) (fun _ => p.2) t) text

/-- The normalization pipeline of extractMedicalData, steps one to
three: OCR correction, abbreviation expansion, unit normalization. -/
def normalize (text : List Char) : List Char :=
  normalizeUnits (expandAbbreviations (correctOCRErrors text))

/-! ### Blood group extraction (extractBloodGroup) -/

/-- The ABO letter class including misread glyphs. -/
def bgCC : CC := .anyOf (lc "AaBbOo0°")

/-- Pattern one: explicit blood group context. -/
def bgPat1 : RE :=
  cat [sP "blood", wsS, .alt (sP "group") (sP "type"), colonWsS,
    .grp 1 (.cls bgCC), wsS, .grp 2 (altL [sP "positive", sP "negative", sP "+", sP "-"])]

/-- Pattern two: letter followed by an Rh word. -/
def bgPat2 : RE :=
  cat [.wb, .grp 1 (.cls bgCC), wsS,
    .grp 2 (altL [sP "positive", sP "negative", sP "+", sP "-"]), wsS, .opt (sP "blood")]

/-- Pattern three: letter immediately followed by a sign. -/
def bgPat3 : RE :=
  cat [.wb, .grp 1 (.cls bgCC), .grp 2 (.cls (.anyOf (lc "+-"))), .wb]

/-- Pattern four: blood group context with optional Rh. -/
def bgPat4 : RE :=
  cat [sP "blood", wsS, .alt (sP "group") (sP "type"), colonWsS,
    .grp 1 (.rep bgCC 1 (some 2)), wsS, .opt (sP "rh"), wsS,
    .opt (.grp 2 (altL [sP "pos", sP "neg", sP "+", sP "-"]))]

/-- The normalized ABO letter of a blood group match. -/
def bgGroup (m : JsMatch) : List Char :=
  if (grpD m 1).map Char.toUpper = lc "0" ∨ (grpD m 1).map Char.toUpper = lc "°" then lc "O"
  else (grpD m 1).map Char.toUpper

/-- The normalized Rh sign of a blood group match. -/
def bgRh (m : JsMatch) : List Char :=
  if toLowerL (grpD m 2) = lc "+" ∨ toLowerL (grpD m 2) = lc "pos" ∨
      toLowerL (grpD m 2) = lc "positive" then lc "+"
  else if toLowerL (grpD m 2) = lc "-" ∨ toLowerL (grpD m 2) = lc "neg" ∨
      toLowerL (grpD m 2) = lc "negative" then lc "-"
  else []

/-- The blood group fact built from a match. -/
def mkBgFact (m : JsMatch) : MedicalFact :=
  { type := .blood_group
    name := lc "Blood Group"
    value := bgGroup m ++ bgRh m
    unit := []
    confidence := .high
    interpretation_reason :=
      lc "Extracted blood group " ++ bgGroup m ++ bgRh m ++ lc " from document" }

/-- extractBloodGroup: first matching pattern wins. Pattern three has no
i flag in the source. -/
def extractBloodGroup (text : List Char) : Option MedicalFact :=
  match jsMatch true bgPat1 text with
  | some m => some (mkBgFact m)
  | none =>
  match jsMatch true bgPat2 text with
  | some m => some (mkBgFact m)
  | none =>
  match jsMatch false bgPat3 text with
  | some m => some (mkBgFact m)
  | none =>
  match jsMatch true bgPat4 text with
  | some m => some (mkBgFact m)
  | none => none

/-! ### Laboratory values and vitals (extractLabValues) -/

/-- One row of the lab pattern table. -/
structure LabPattern where
  pat : RE
  name : List Char
  unit : List Char
  type : FactType
deriving DecidableEq

/-- The lab pattern table, in source order. -/
def labTable : List LabPattern :=
  [⟨cat [sP "hemoglobin", colonWsS, .grp 1 numRE, wsS,
      .opt (.grp 2 (altL [sP "g/dL", sP "g%", sP "gm%"]))],
    lc "Hemoglobin", lc "g/dL", .laboratory_value⟩,
   ⟨cat [altL [sP "wbc", cat [sP "white", wsS, sP "blood", wsS, sP "cell"]], colonWsS,
      .grp 1 numRE, wsS,
      .opt (.grp 2 (altL [cat [sP "cells/cu", .opt (sP "."), sP "mm"], sP "/cumm",
        sP "cells/µL"]))],
    lc "White Blood Cell Count", lc "cells/cu.mm", .laboratory_value⟩,
   ⟨cat [altL [sP "rbc", cat [sP "red", wsS, sP "blood", wsS, sP "cell"]], colonWsS,
      .grp 1 numRE, wsS,
      .opt (.grp 2 (altL [cat [sP "million/cu", .opt (sP "."), sP "mm"], sP "cells/µL"]))],
    lc "Red Blood Cell Count", lc "million/cu.mm", .laboratory_value⟩,
   ⟨cat [sP "platelet", .opt (.cls (.anyOf (lc "s"))), colonWsS, .grp 1 numRE, wsS,
      .opt (.grp 2 (altL [sP "lakh", sP "thousand", cat [sP "/cu", .opt (sP "."), sP "mm"],
        sP "cells/µL"]))],
    lc "Platelet Count", lc "/cu.mm", .laboratory_value⟩,
   ⟨cat [.opt (cat [sP "fasting", wsS]), .opt (cat [sP "blood", wsS]), sP "sugar", colonWsS,
      .grp 1 numRE, wsS, .opt (.grp 2 (altL [sP "mg/dL", sP "mg%"]))],
    lc "Blood Sugar", lc "mg/dL", .laboratory_value⟩,
   ⟨cat [sP "glucose", colonWsS, .grp 1 numRE, wsS,
      .opt (.grp 2 (altL [sP "mg/dL", sP "mg%", sP "mmol/L"]))],
    lc "Glucose", lc "mg/dL", .laboratory_value⟩,
   ⟨cat [sP "cholesterol", colonWsS, .grp 1 numRE, wsS, .opt (.grp 2 (sP "mg/dL"))],
    lc "Cholesterol", lc "mg/dL", .laboratory_value⟩,
   ⟨cat [altL [sP "bp", cat [sP "blood", wsS, sP "pressure"]], colonWsS, .grp 1 digP, wsS,
      sP "/", wsS, .grp 2 digP, wsS, .opt (.grp 3 (sP "mmHg"))],
    lc "Blood Pressure", lc "mmHg", .vital⟩,
   ⟨cat [sP "pulse", colonWsS, .grp 1 digP, wsS, .opt (.grp 2 (altL [sP "/min", sP "bpm"]))],
    lc "Pulse Rate", lc "bpm", .vital⟩,
   ⟨cat [sP "temperature", colonWsS, .grp 1 numRE, wsS,
      .opt (.grp 2 (cat [.opt (sP "°"), .cls (.anyOf (lc "FC"))]))],
    lc "Temperature", lc "°F", .vital⟩,
   ⟨cat [sP "esr", colonWsS, .grp 1 numRE, wsS, .opt (.grp 2 (sP "mm/hr"))],
    lc "ESR", lc "mm/hr", .laboratory_value⟩,
   ⟨cat [sP "hba1c", colonWsS, .grp 1 numRE, wsS, .opt (.grp 2 (sP "%"))],
    lc "HbA1c", lc "%", .laboratory_value⟩,
   ⟨cat [sP "creatinine", colonWsS, .grp 1 numRE, wsS, .opt (.grp 2 (sP "mg/dL"))],
    lc "Creatinine", lc "mg/dL", .laboratory_value⟩,
   ⟨cat [sP "urea", colonWsS, .grp 1 numRE, wsS, .opt (.grp 2 (sP "mg/dL"))],
    lc "Urea", lc "mg/dL", .laboratory_value⟩]

/-- JavaScript string or-else: empty falls through. -/
def jsOr (a b : List Char) : List Char := if a = [] then b else a

/-- The fact built from one lab table row and its match. -/
def mkLabFact (e : LabPattern) (m : JsMatch) : MedicalFact :=
  { type := e.type
    name := e.name
    value :=
      if e.name = lc "Blood Pressure" ∧ grpD m 2 ≠ [] then
        grpD m 1 ++ lc "/" ++ grpD m 2
      else grpD m 1
    unit := jsOr (grpD m 2) (jsOr (grpD m 3) e.unit)
    confidence := .high
    interpretation_reason := lc "Extracted " ++ e.name ++ lc " value from document" }

/-- extractLabValues: one fact per matching table row, in table order. -/
def extractLabValues (text : List Char) : List MedicalFact :=
  labTable.filterMap (fun e => (jsMatch true e.pat text).map (mkLabFact e))

/-! ### Medications (extractMedications) -/

/-- A medicine name: a word, optionally a second word. -/
def medNameRE : RE :=
  cat [.rep .alphaAny 1 none, .opt (cat [.rep .ws 1 none, .rep .alphaAny 1 none])]

/-- Tablet pattern. -/
def medTab : RE :=
  cat [sP "tab", .opt (sP "let"), .opt (sP "."), wsS, .grp 1 medNameRE, wsS,
    .opt (.grp 2 (cat [digP, wsS, sP "mg"]))]

/-- Capsule pattern. -/
def medCap : RE :=
  cat [sP "cap", .opt (sP "sule"), .opt (sP "."), wsS, .grp 1 medNameRE, wsS,
    .opt (.grp 2 (cat [digP, wsS, sP "mg"]))]

/-- Syrup pattern. -/
def medSyp : RE :=
  cat [sP "sy", .opt (sP "p"), .opt (sP "."), wsS, .grp 1 medNameRE, wsS,
    .opt (.grp 2 (cat [digP, wsS, sP "ml"]))]

/-- Injection pattern. -/
def medInj : RE := cat [sP "inj", .opt (sP "."), wsS, .grp 1 medNameRE]

/-- The medication patterns, in source order. -/
def medPatterns : List RE := [medTab, medCap, medSyp, medInj]

/-- The stop list of obvious false captures. -/
def stopWords : List (List Char) := [lc "the", lc "and", lc "for", lc "with"]

/-- The medication fact of one match, or nothing for a stop word. -/
def mkMedFact (m : JsMatch) : Option MedicalFact :=
  if stopWords.contains (toLowerL (trimL (grpD m 1))) then none
  else some
    { type := .medication
      name := trimL (grpD m 1)
      value := grpD m 2
      unit := []
      confidence := .medium
      interpretation_reason := lc "Medication extracted from prescription context" }

/-- extractMedications: global exec loop per pattern, in pattern order. -/
def extractMedications (text : List Char) : List MedicalFact :=
  (medPatterns.map (fun p => (execAll true p text).filterMap mkMedFact)).flatten

/-! ### Date extraction (extractDate) -/

/-- Date separator class. -/
def sepCls : RE := .cls (.anyOf (lc "/-."))

/-- Numeric day month year pattern. -/
def datePat1 : RE := cat [.grp 1 d12, sepCls, .grp 2 d12, sepCls, .grp 3 d4]

/-- Numeric year month day pattern. -/
def datePat2 : RE := cat [.grp 1 d4, sepCls, .grp 2 d12, sepCls, .grp 3 d12]

/-- The twelve month name prefixes, in source order. -/
def monthAlt : RE :=
  altL [sP "jan", sP "feb", sP "mar", sP "apr", sP "may", sP "jun", sP "jul", sP "aug",
    sP "sep", sP "oct", sP "nov", sP "dec"]

/-- Day month-name year pattern. -/
def datePat3 : RE :=
  cat [.grp 1 d12, wsS, monthAlt, .rep .alphaLow 0 none, wsS, .grp 2 d4]

/-- Month-name day year pattern. -/
def datePat4 : RE :=
  cat [monthAlt, .rep .alphaLow 0 none, wsS, .grp 1 d12, .opt (sP ","), wsS, .grp 2 d4]

/-- The month name to number map. -/
def monthMap : List (List Char × List Char) :=
  [(lc "jan", lc "01"), (lc "feb", lc "02"), (lc "mar", lc "03"), (lc "apr", lc "04"),
   (lc "may", lc "05"), (lc "jun", lc "06"), (lc "jul", lc "07"), (lc "aug", lc "08"),
   (lc "sep", lc "09"), (lc "oct", lc "10"), (lc "nov", lc "11"), (lc "dec", lc "12")]

/-- JavaScript padStart to two with zero. -/
def pad2 (s : List Char) : List Char :=
  if s.length < 2 then List.replicate (2 - s.length) '0' ++ s else s

/-- The numeric branch: year month day when the first group has four
digits, else day before month. -/
def numericResult (m : JsMatch) : List Char :=
  if (grpD m 1).length = 4 then
    grpD m 1 ++ lc "-" ++ pad2 (grpD m 2) ++ lc "-" ++ pad2 (grpD m 3)
  else
    grpD m 3 ++ lc "-" ++ pad2 (grpD m 2) ++ lc "-" ++ pad2 (grpD m 1)

/-- The month-name branch: the month number comes from the first month
substring anywhere in the text. -/
def monthResult (text : List Char) (m : JsMatch) : Option (List Char) :=
  match jsMatch true monthAlt text with
  | none => none
  | some mm =>
    some (jsOr (grpD m 2) (grpD m 3) ++ lc "-" ++
      (match monthMap.lookup ((toLowerL mm.m0).take 3) with
       | some v => v
       | none => lc "undefined") ++ lc "-" ++ pad2 (grpD m 1))

/-- extractDate: the four patterns in source order; the month-name
branch falls through to the next pattern when no month substring is
found. -/
def extractDate (text : List Char) : Option (List Char) :=
  match jsMatch false datePat1 text with
  | some m => some (numericResult m)
  | none =>
  match jsMatch false datePat2 text with
  | some m => some (numericResult m)
  | none =>
  match jsMatch true datePat3 text with
  | some m =>
    (match monthResult text m with
     | some r => some r
     | none =>
       match jsMatch true datePat4 text with
       | some m2 => monthResult text m2
       | none => none)
  | none =>
  match jsMatch true datePat4 text with
  | some m => monthResult text m
  | none => none

/-! ### Document classification (detectDocumentType) -/

/-- Keyword containment on the lowercased text. -/
def lowHas (text kw : List Char) : Bool := subL kw (toLowerL text)

/-- The blood report branch condition of detectDocumentType. -/
def bloodKw (text : List Char) : Bool :=
  lowHas text (lc "blood") && (lowHas text (lc "report") || lowHas text (lc "test"))

/-- The prescription branch condition of detectDocumentType. -/
def prescKw (text : List Char) : Bool :=
  lowHas text (lc "prescription") || lowHas text (lc "rx") ||
    lowHas text (lc "tab.") || lowHas text (lc "cap.")

/-- The scan branch condition of detectDocumentType. -/
def scanKw (text : List Char) : Bool :=
  lowHas text (lc "scan") || lowHas text (lc "x-ray") || lowHas text (lc "mri") ||
    lowHas text (lc "ct") || lowHas text (lc "ultrasound")

/-- The receipt branch condition of detectDocumentType. -/
def receiptKw (text : List Char) : Bool :=
  lowHas text (lc "receipt") || lowHas text (lc "invoice") ||
    lowHas text (lc "bill") || lowHas text (lc "payment")

/-- detectDocumentType: ordered decision list on keyword containment. -/
def detectDocumentType (text : List Char) : DocumentType :=
  if bloodKw text then .blood_report
  else if prescKw text then .prescription
  else if scanKw text then .scan
  else if receiptKw text then .receipt
  else .unknown

/-- extractMedicalData: normalization, then blood group, lab values,
medications, date and document type on the corrected text. -/
def extractMedicalData (rawText : List Char) : ExtractedMedicalData :=
  { document_type := detectDocumentType (normalize rawText)
    report_date := extractDate (normalize rawText)
    extracted_facts :=
      (extractBloodGroup (normalize rawText)).toList ++
        extractLabValues (normalize rawText) ++ extractMedications (normalize rawText)
    corrected_text := normalize rawText }

/-! ### Fixtures and claim-support definitions -/

/-- Fixture record for witnesses. -/
def wRec : MedicalRecord :=
  ⟨lc "blood-report", lc "2024-01-01", lc "r.pdf", lc "Hemoglobin: 13.5 g/dL today"⟩

/-- Fixture client report for witnesses. -/
def wRep : Report :=
  ⟨lc "id1", lc "u", some (lc "r.pdf"), some (lc "Hemoglobin: 13.5 g/dL today")⟩

/-- Numeric value of a digit string. -/
def digitsToNat (s : List Char) : Nat := s.foldl (fun n c => 10 * n + (c.toNat - 48)) 0

/-- Gregorian leap year. -/
def isLeapYear (y : Nat) : Bool := (y % 4 = 0 && y % 100 ≠ 0) || y % 400 = 0

/-- Days of a month of a year. -/
def daysInMonth (y m : Nat) : Nat :=
  if m = 2 then (if isLeapYear y then 29 else 28)
  else if m = 4 ∨ m = 6 ∨ m = 9 ∨ m = 11 then 30
  else 31

/-- A valid ISO-8601 calendar date as the claim words it: four digit
year, dash, month in one to twelve, dash, day valid for that month and
year. -/
def isValidISODate : List Char → Bool
  | [y1, y2, y3, y4, s1, m1, m2, s2, d1, d2] =>
    ([y1, y2, y3, y4].all Char.isDigit) && s1 == '-' && s2 == '-' &&
      ([m1, m2].all Char.isDigit) && ([d1, d2].all Char.isDigit) &&
      decide (1 ≤ digitsToNat [m1, m2]) && decide (digitsToNat [m1, m2] ≤ 12) &&
      decide (1 ≤ digitsToNat [d1, d2]) &&
      decide (digitsToNat [d1, d2] ≤
        daysInMonth (digitsToNat [y1, y2, y3, y4]) (digitsToNat [m1, m2]))
  | _ => false

/-- The blood group fact both C6 inputs produce. -/
def bgOPlus : MedicalFact :=
  { type := .blood_group
    name := lc "Blood Group"
    value := lc "O+"
    unit := []
    confidence := .high
    interpretation_reason := lc "Extracted blood group O+ from document" }

/-- The hemoglobin fact of the fixture input, for the C3 witness. -/
def hbFixtureFact : MedicalFact :=
  { type := .laboratory_value
    name := lc "Hemoglobin"
    value := lc "13.5"
    unit := lc "g/dL"
    confidence := .high
    interpretation_reason := lc "Extracted Hemoglobin value from document" }

/-- The sampled fixture inputs of the testable-properties section of the
spec. -/
def sampledInputs : List (List Char) :=
  [lc "Blood Group: O Positive", lc "Blood Group: 0 Positive", lc "Hemoglobin: 13.5 g/dL",
   lc "BP: 120/80 mmHg", lc "Tab. Paracetamol 500mg", lc "15/03/2024", lc "15 Mar 2024"]

/-! ### Evidence locator lemmas -/

theorem splitNlGo_substr (cs : List Char) :
    ∀ cur, ∀ x ∈ splitNlGo cs cur, x <:+: (cur.reverse ++ cs) := by
  induction cs with
  | nil =>
    intro cur x hx
    simp [splitNlGo] at hx
    subst hx
    simp
  | cons c cs ih =>
    intro cur x hx
    simp only [splitNlGo] at hx
    by_cases hc : c = '\n'
    · rw [if_pos hc] at hx
      rcases List.mem_cons.mp hx with h | h
      · subst h
        exact List.IsPrefix.isInfix (List.prefix_append _ (c :: cs))
      · have := ih [] x h
        simp at this
        exact this.trans (Trans.trans ( List.IsSuffix.isInfix (List.suffix_cons c cs))
          ( List.IsSuffix.isInfix (List.suffix_append cur.reverse (c :: cs))))
    · rw [if_neg hc] at hx
      have := ih (c :: cur) x hx
      simpa [List.append_assoc] using this

theorem splitNl_substr (l x : List Char) (hx : x ∈ splitNl l) : x <:+: l := by
  simpa using splitNlGo_substr l [] x hx

theorem trimL_substr (l : List Char) : trimL l <:+: l := by
  unfold trimL
  have h1 : l.dropWhile isWS <:+ l := List.dropWhile_suffix isWS
  have h2 : (l.dropWhile isWS).reverse.dropWhile isWS <:+ (l.dropWhile isWS).reverse :=
    List.dropWhile_suffix isWS
  have h3 := List.reverse_prefix.mpr h2
  rw [List.reverse_reverse] at h3
  exact Trans.trans ( List.IsPrefix.isInfix h3) ( List.IsSuffix.isInfix h1)

theorem recLines_substr (t line : List Char) (h : line ∈ recLines t) : line <:+: t :=
  splitNl_substr t line (List.mem_of_mem_filter h)

theorem scanLines_mem (cap : Nat) (r : MedicalRecord) (terms : List (List Char)) :
    ∀ lines acc (e : EvidenceItem), e ∈ scanLines cap r terms lines acc →
      e ∈ acc ∨ ∃ line ∈ lines, e = mkEvidence r line := by
  intro lines
  induction lines with
  | nil =>
    intro acc e he
    exact Or.inl he
  | cons line rest ih =>
    intro acc e he
    simp only [scanLines] at he
    by_cases hc : candLine terms line = true
    · rw [if_pos hc] at he
      by_cases hcap : cap ≤ (acc ++ [mkEvidence r line]).length
      · rw [if_pos hcap] at he
        rcases List.mem_append.mp he with h | h
        · exact Or.inl h
        · exact Or.inr ⟨line, by simp, by simpa using h⟩
      · rw [if_neg hcap] at he
        rcases ih _ e he with h | ⟨l2, hl2, he2⟩
        · rcases List.mem_append.mp h with h | h
          · exact Or.inl h
          · exact Or.inr ⟨line, by simp, by simpa using h⟩
        · exact Or.inr ⟨l2, by simp [hl2], he2⟩
    · rw [if_neg hc] at he
      rcases ih _ e he with h | ⟨l2, hl2, he2⟩
      · exact Or.inl h
      · exact Or.inr ⟨l2, by simp [hl2], he2⟩

theorem scanRecords_mem (cap : Nat) (terms : List (List Char)) :
    ∀ rs acc (e : EvidenceItem), e ∈ scanRecords cap terms rs acc →
      e ∈ acc ∨ ∃ r ∈ rs, ∃ line ∈ recLines r.text, e = mkEvidence r line := by
  intro rs
  induction rs with
  | nil =>
    intro acc e he
    exact Or.inl he
  | cons r rest ih =>
    intro acc e he
    simp only [scanRecords] at he
    by_cases hcap : cap ≤ (scanLines cap r terms (recLines r.text) acc).length
    · rw [if_pos hcap] at he
      rcases scanLines_mem cap r terms _ _ e he with h | ⟨l2, hl2, he2⟩
      · exact Or.inl h
      · exact Or.inr ⟨r, by simp, l2, hl2, he2⟩
    · rw [if_neg hcap] at he
      rcases ih _ e he with h | ⟨r2, hr2, l2, hl2, he2⟩
      · rcases scanLines_mem cap r terms _ _ e h with h2 | ⟨l2, hl2, he2⟩
        · exact Or.inl h2
        · exact Or.inr ⟨r, by simp, l2, hl2, he2⟩
      · exact Or.inr ⟨r2, by simp [hr2], l2, hl2, he2⟩

theorem scanLinesC_mem (cap : Nat) (r : Report) (terms : List (List Char)) :
    ∀ lines acc (e : ClientEvidence), e ∈ scanLinesC cap r terms lines acc →
      e ∈ acc ∨ ∃ line ∈ lines, e = mkClientEvidence r line := by
  intro lines
  induction lines with
  | nil =>
    intro acc e he
    exact Or.inl he
  | cons line rest ih =>
    intro acc e he
    simp only [scanLinesC] at he
    by_cases hc : candLine terms line = true
    · rw [if_pos hc] at he
      by_cases hcap : cap ≤ (acc ++ [mkClientEvidence r line]).length
      · rw [if_pos hcap] at he
        rcases List.mem_append.mp he with h | h
        · exact Or.inl h
        · exact Or.inr ⟨line, by simp, by simpa using h⟩
      · rw [if_neg hcap] at he
        rcases ih _ e he with h | ⟨l2, hl2, he2⟩
        · rcases List.mem_append.mp h with h | h
          · exact Or.inl h
          · exact Or.inr ⟨line, by simp, by simpa using h⟩
        · exact Or.inr ⟨l2, by simp [hl2], he2⟩
    · rw [if_neg hc] at he
      rcases ih _ e he with h | ⟨l2, hl2, he2⟩
      · exact Or.inl h
      · exact Or.inr ⟨l2, by simp [hl2], he2⟩

theorem scanReportsC_mem (cap : Nat) (terms : List (List Char)) :
    ∀ rs acc (e : ClientEvidence), e ∈ scanReportsC cap terms rs acc →
      e ∈ acc ∨ ∃ r ∈ rs, ∃ t, r.ocrText = some t ∧
        ∃ line ∈ recLines t, e = mkClientEvidence r line := by
  intro rs
  induction rs with
  | nil =>
    intro acc e he
    exact Or.inl he
  | cons r rest ih =>
    intro acc e he
    simp only [scanReportsC] at he
    rcases ht : r.ocrText with _ | t
    · rw [ht] at he
      dsimp only at he
      rcases ih _ e he with h | ⟨r2, hr2, t2, ht2, l2, hl2, he2⟩
      · exact Or.inl h
      · exact Or.inr ⟨r2, by simp [hr2], t2, ht2, l2, hl2, he2⟩
    · rw [ht] at he
      dsimp only at he
      by_cases hte : t = []
      · rw [if_pos hte] at he
        rcases ih _ e he with h | ⟨r2, hr2, t2, ht2, l2, hl2, he2⟩
        · exact Or.inl h
        · exact Or.inr ⟨r2, by simp [hr2], t2, ht2, l2, hl2, he2⟩
      · rw [if_neg hte] at he
        by_cases hcap : cap ≤ (scanLinesC cap r terms (recLines t) acc).length
        · rw [if_pos hcap] at he
          rcases scanLinesC_mem cap r terms _ _ e he with h | ⟨l2, hl2, he2⟩
          · exact Or.inl h
          · exact Or.inr ⟨r, by simp, t, ht, l2, hl2, he2⟩
        · rw [if_neg hcap] at he
          rcases ih _ e he with h | ⟨r2, hr2, t2, ht2, l2, hl2, he2⟩
          · rcases scanLinesC_mem cap r terms _ _ e h with h2 | ⟨l2, hl2, he2⟩
            · exact Or.inl h2
            · exact Or.inr ⟨r, by simp, t, ht, l2, hl2, he2⟩
          · exact Or.inr ⟨r2, by simp [hr2], t2, ht2, l2, hl2, he2⟩

theorem scanLines_len (cap : Nat) (r : MedicalRecord) (terms : List (List Char)) :
    ∀ lines acc, acc.length < cap → (scanLines cap r terms lines acc).length ≤ cap := by
  intro lines
  induction lines with
  | nil =>
    intro acc h
    exact Nat.le_of_lt h
  | cons line rest ih =>
    intro acc h
    simp only [scanLines]
    by_cases hc : candLine terms line = true
    · rw [if_pos hc]
      have hlen : (acc ++ [mkEvidence r line]).length ≤ cap := by
        simpa using Nat.succ_le_of_lt h
      by_cases hcap : cap ≤ (acc ++ [mkEvidence r line]).length
      · rw [if_pos hcap]
        exact hlen
      · rw [if_neg hcap]
        exact ih _ (Nat.lt_of_not_le hcap)
    · rw [if_neg hc]
      exact ih _ h

theorem scanRecords_len (cap : Nat) (terms : List (List Char)) :
    ∀ rs acc, acc.length < cap → (scanRecords cap terms rs acc).length ≤ cap := by
  intro rs
  induction rs with
  | nil =>
    intro acc h
    exact Nat.le_of_lt h
  | cons r rest ih =>
    intro acc h
    simp only [scanRecords]
    by_cases hcap : cap ≤ (scanLines cap r terms (recLines r.text) acc).length
    · rw [if_pos hcap]
      exact scanLines_len cap r terms _ _ h
    · rw [if_neg hcap]
      exact ih _ (Nat.lt_of_not_le hcap)

theorem scanLinesC_len (cap : Nat) (r : Report) (terms : List (List Char)) :
    ∀ lines acc, acc.length < cap → (scanLinesC cap r terms lines acc).length ≤ cap := by
  intro lines
  induction lines with
  | nil =>
    intro acc h
    exact Nat.le_of_lt h
  | cons line rest ih =>
    intro acc h
    simp only [scanLinesC]
    by_cases hc : candLine terms line = true
    · rw [if_pos hc]
      have hlen : (acc ++ [mkClientEvidence r line]).length ≤ cap := by
        simpa using Nat.succ_le_of_lt h
      by_cases hcap : cap ≤ (acc ++ [mkClientEvidence r line]).length
      · rw [if_pos hcap]
        exact hlen
      · rw [if_neg hcap]
        exact ih _ (Nat.lt_of_not_le hcap)
    · rw [if_neg hc]
      exact ih _ h

theorem scanReportsC_len (cap : Nat) (terms : List (List Char)) :
    ∀ rs acc, acc.length < cap → (scanReportsC cap terms rs acc).length ≤ cap := by
  intro rs
  induction rs with
  | nil =>
    intro acc h
    exact Nat.le_of_lt h
  | cons r rest ih =>
    intro acc h
    simp only [scanReportsC]
    rcases r.ocrText with _ | t
    · exact ih _ h
    · dsimp only
      by_cases hte : t = []
      · rw [if_pos hte]
        exact ih _ h
      · rw [if_neg hte]
        by_cases hcap : cap ≤ (scanLinesC cap r terms (recLines t) acc).length
        · rw [if_pos hcap]
          exact scanLinesC_len cap r terms _ _ h
        · rw [if_neg hcap]
          exact ih _ (Nat.lt_of_not_le hcap)

theorem scanLines_none (cap : Nat) (r : MedicalRecord) (terms : List (List Char)) :
    ∀ lines acc, (∀ line ∈ lines, candLine terms line = false) →
      scanLines cap r terms lines acc = acc := by
  intro lines
  induction lines with
  | nil =>
    intro acc _
    rfl
  | cons line rest ih =>
    intro acc h
    simp only [scanLines]
    rw [if_neg (by simp [h line (by simp)])]
    exact ih _ (fun l hl => h l (by simp [hl]))

theorem scanRecords_none (cap : Nat) (terms : List (List Char)) :
    ∀ rs acc, (∀ r ∈ rs, ∀ line ∈ recLines r.text, candLine terms line = false) →
      scanRecords cap terms rs acc = acc := by
  intro rs
  induction rs with
  | nil =>
    intro acc _
    rfl
  | cons r rest ih =>
    intro acc h
    simp only [scanRecords]
    rw [scanLines_none cap r terms _ acc (fun l hl => h r (by simp) l hl)]
    by_cases hcap : cap ≤ acc.length
    · rw [if_pos hcap]
    · rw [if_neg hcap]
      exact ih _ (fun r2 hr2 => h r2 (by simp [hr2]))

theorem scanLinesC_none (cap : Nat) (r : Report) (terms : List (List Char)) :
    ∀ lines acc, (∀ line ∈ lines, candLine terms line = false) →
      scanLinesC cap r terms lines acc = acc := by
  intro lines
  induction lines with
  | nil =>
    intro acc _
    rfl
  | cons line rest ih =>
    intro acc h
    simp only [scanLinesC]
    rw [if_neg (by simp [h line (by simp)])]
    exact ih _ (fun l hl => h l (by simp [hl]))

theorem scanReportsC_none (cap : Nat) (terms : List (List Char)) :
    ∀ rs acc, (∀ r ∈ rs, ∀ t, r.ocrText = some t → ∀ line ∈ recLines t,
        candLine terms line = false) →
      scanReportsC cap terms rs acc = acc := by
  intro rs
  induction rs with
  | nil =>
    intro acc _
    rfl
  | cons r rest ih =>
    intro acc h
    simp only [scanReportsC]
    rcases ht : r.ocrText with _ | t
    · exact ih _ (fun r2 hr2 => h r2 (by simp [hr2]))
    · dsimp only
      by_cases hte : t = []
      · rw [if_pos hte]
        exact ih _ (fun r2 hr2 => h r2 (by simp [hr2]))
      · rw [if_neg hte]
        rw [scanLinesC_none cap r terms _ acc (fun l hl => h r (by simp) t ht l hl)]
        by_cases hcap : cap ≤ acc.length
        · rw [if_pos hcap]
        · rw [if_neg hcap]
          exact ih _ (fun r2 hr2 => h r2 (by simp [hr2]))

/-! ### Claim C1 and claim C9 -/

/-- C1: every evidence item produced by the evidence locator (server
findRelevantEvidence and client findEvidence) has a snippet that, before
the truncation to the bounded length, is a verbatim substring of the
stored text of some document of the corpus. -/
theorem C1_evidence_snippet_verbatim (records : List MedicalRecord) (reports : List Report)
    (query answer : List Char) :
    (∀ e ∈ findRelevantEvidence records query answer,
       ∃ r ∈ records, ∃ s, s <:+: r.text ∧ e.snippet = s.take 200) ∧
    (∀ e ∈ findEvidence reports query answer,
       ∃ rp ∈ reports, ∃ t, rp.ocrText = some t ∧
         ∃ s, s <:+: t ∧ e.snippet = s.take 150) := by
  constructor
  · intro e he
    rcases scanRecords_mem 5 (allTermsOf query answer) records [] e he with h | ⟨r, hr, line, hl, he2⟩
    · simp at h
    · refine ⟨r, hr, trimL line, (trimL_substr line).trans (recLines_substr r.text line hl), ?_⟩
      rw [he2]
      rfl
  · intro e he
    rcases scanReportsC_mem 3 (allTermsOf query answer) reports [] e he with
      h | ⟨r, hr, t, ht, line, hl, he2⟩
    · simp at h
    · refine ⟨r, hr, t, ht, trimL line, (trimL_substr line).trans (recLines_substr t line hl), ?_⟩
      rw [he2]
      rfl

theorem C1_witness :
    (∃ r ∈ [wRec], ∃ s, s <:+: r.text ∧
       (mkEvidence wRec (lc "Hemoglobin: 13.5 g/dL today")).snippet = s.take 200) ∧
    (∃ rp ∈ [wRep], ∃ t, rp.ocrText = some t ∧ ∃ s, s <:+: t ∧
       (mkClientEvidence wRep (lc "Hemoglobin: 13.5 g/dL today")).snippet = s.take 150) :=
  ⟨(C1_evidence_snippet_verbatim [wRec] [wRep] (lc "hemoglobin value") (lc "ok")).1 _
     (by decide),
   (C1_evidence_snippet_verbatim [wRec] [wRep] (lc "hemoglobin value") (lc "ok")).2 _
     (by decide)⟩

/-- C9: the evidence locator returns at most five items in the server
variant and at most three in the client variant, and when no candidate
line exists it returns the empty list. -/
theorem C9_evidence_caps (records : List MedicalRecord) (reports : List Report)
    (query answer : List Char) :
    (findRelevantEvidence records query answer).length ≤ 5 ∧
    (findEvidence reports query answer).length ≤ 3 ∧
    ((∀ r ∈ records, ∀ line ∈ recLines r.text,
        candLine (allTermsOf query answer) line = false) →
      findRelevantEvidence records query answer = []) ∧
    ((∀ rp ∈ reports, ∀ t, rp.ocrText = some t → ∀ line ∈ recLines t,
        candLine (allTermsOf query answer) line = false) →
      findEvidence reports query answer = []) := by
  refine ⟨scanRecords_len 5 _ records [] (by simp), scanReportsC_len 3 _ reports [] (by simp),
    fun h => scanRecords_none 5 _ records [] h, fun h => scanReportsC_none 3 _ reports [] h⟩

theorem C9_witness :
    (findRelevantEvidence [wRec] (lc "zz aa") (lc "bb")).length ≤ 5 ∧
    (findEvidence [wRep] (lc "zz aa") (lc "bb")).length ≤ 3 ∧
    findRelevantEvidence [wRec] (lc "zz aa") (lc "bb") = [] ∧
    findEvidence [wRep] (lc "zz aa") (lc "bb") = [] := by
  obtain ⟨h1, h2, h3, h4⟩ := C9_evidence_caps [wRec] [wRep] (lc "zz aa") (lc "bb")
  exact ⟨h1, h2, h3 (by decide), h4 (by decide)⟩

/-! ### Claim C2: normalization idempotence -/

/-- C2 counterexample: the claim fails as stated. The unit rule mapping
sec to seconds retriggers on its own output, so applying the
normalization pipeline twice to the input sec differs from applying it
once. -/
theorem C2_counterexample : normalize (normalize (lc "sec")) ≠ normalize (lc "sec") := by
  decide

/-- C2 amended: the normalization pipeline is idempotent on the sampled
fixture inputs of the spec; universal idempotence fails because the unit
rule mapping sec to seconds retriggers on its own output. -/
theorem C2_idempotent_on_sampled (x : List Char) (hx : x ∈ sampledInputs) :
    normalize (normalize x) = normalize x := by
  fin_cases hx <;> decide

theorem C2_witness :
    normalize (normalize (lc "BP: 120/80 mmHg")) = normalize (lc "BP: 120/80 mmHg") :=
  C2_idempotent_on_sampled (lc "BP: 120/80 mmHg") (by decide)

/-! ### Claim C3 counterexample: a medication fact with empty value -/

/-- C3 counterexample: the tablet recognizer captures no dosage group on
this input yet emits a fact, whose value is the empty string. -/
theorem C3_counterexample :
    ∃ f ∈ (extractMedicalData (lc "Tab. Amoxicillin")).extracted_facts, f.value = [] := by
  decide

/-! ### Claim C4 counterexample: an out-of-range date string -/

/-- C4 counterexample: a numeric match is never range-checked, so a
malformed calendar date string is returned rather than null. -/
theorem C4_counterexample :
    extractDate (lc "31/02/2024") = some (lc "2024-02-31") ∧
    isValidISODate (lc "2024-02-31") = false := by
  decide

/-! ### Claim C5: blood pressure unit -/

/-- C5: the full pipeline on the blood pressure fixture. The unit field
is the diastolic reading 80, not mmHg: the source takes match two or
match three as the unit, and for the blood pressure pattern match two is
the second number, which is always present. -/
theorem C5_bp_unit_is_diastolic :
    (extractMedicalData (lc "BP: 120/80 mmHg")).extracted_facts =
      [{ type := .vital
         name := lc "Blood Pressure"
         value := lc "120/80"
         unit := lc "80"
         confidence := .high
         interpretation_reason := lc "Extracted Blood Pressure value from document" }] := by
  decide

/-! ### Claim C6: blood group fixtures -/

/-- C6: both fixture inputs, the clean one and the one with the OCR
misread zero, produce the same single blood group fact with value O plus
and high confidence. -/
theorem C6_blood_group_extraction :
    (extractMedicalData (lc "Blood Group: O Positive")).extracted_facts = [bgOPlus] ∧
    (extractMedicalData (lc "Blood Group: 0 Positive")).extracted_facts = [bgOPlus] ∧
    bgOPlus.type = .blood_group ∧ bgOPlus.value = lc "O+" ∧ bgOPlus.confidence = .high := by
  decide

/-! ### Claim C7: classifier order -/

/-- C7: the classifier is the ordered decision list blood report,
prescription, scan, receipt, unknown, and a text with prescription and
scan keywords but no blood report keywords classifies as
prescription. -/
theorem C7_classifier_order (t : List Char) :
    detectDocumentType t =
      (if bloodKw t then DocumentType.blood_report
       else if prescKw t then DocumentType.prescription
       else if scanKw t then DocumentType.scan
       else if receiptKw t then DocumentType.receipt
       else DocumentType.unknown) ∧
    (prescKw t = true → scanKw t = true → bloodKw t = false →
      detectDocumentType t = DocumentType.prescription) := by
  refine ⟨rfl, fun h1 _ h3 => ?_⟩
  simp [detectDocumentType, h1, h3]

theorem C7_witness :
    detectDocumentType (lc "prescription for ct scan") = DocumentType.prescription :=
  (C7_classifier_order (lc "prescription for ct scan")).2 (by decide) (by decide) (by decide)

/-! ### Claim C8: date resolution fixtures -/

/-- C8: the numeric fixture resolves day before month, and the month
name fixture resolves to the same date. -/
theorem C8_date_resolution :
    extractDate (lc "15/03/2024") = some (lc "2024-03-15") ∧
    extractDate (lc "15 Mar 2024") = some (lc "2024-03-15") := by
  decide

/-! ### Claim C10: substring keyword containment -/

/-- C10: the classifier tests raw substring containment, so any text
that fails the blood report and prescription branches and contains the
two characters c t anywhere classifies as scan. -/
theorem C10_ct_substring_scan (t : List Char) (h1 : bloodKw t = false)
    (h2 : prescKw t = false) (h3 : lowHas t (lc "ct") = true) :
    detectDocumentType t = DocumentType.scan := by
  have hs : scanKw t = true := by simp [scanKw, h3]
  simp [detectDocumentType, h1, h2, hs]

theorem C10_witness : detectDocumentType (lc "doctor") = DocumentType.scan :=
  C10_ct_substring_scan (lc "doctor") (by decide) (by decide) (by decide)

/-! ### Basic engine lemmas -/

theorem ciEqL_length (ci : Bool) : ∀ d s, ciEqL ci d s = true → d.length = s.length := by
  intro d
  induction d with
  | nil =>
    intro s h
    cases s with
    | nil => rfl
    | cons b bs => simp [ciEqL] at h
  | cons a as ih =>
    intro s h
    cases s with
    | nil => simp [ciEqL] at h
    | cons b bs =>
      simp only [ciEqL, Bool.and_eq_true] at h
      simp [ih bs h.2]

theorem strOk_take (ci : Bool) : ∀ s r, strOk ci s r = true →
    ciEqL ci (r.take s.length) s = true := by
  intro s
  induction s with
  | nil =>
    intro r _
    simp [ciEqL]
  | cons a as ih =>
    intro r h
    cases r with
    | nil => simp [strOk] at h
    | cons b bs =>
      simp only [strOk, Bool.and_eq_true] at h
      simp only [List.length_cons, List.take_succ_cons, ciEqL, Bool.and_eq_true]
      exact ⟨by simpa [ciChar] using h.1, ih bs h.2⟩

theorem strOk_length (ci : Bool) : ∀ s r, strOk ci s r = true → s.length ≤ r.length := by
  intro s
  induction s with
  | nil => intro r _; simp
  | cons a as ih =>
    intro r h
    cases r with
    | nil => simp [strOk] at h
    | cons b bs =>
      simp only [strOk, Bool.and_eq_true] at h
      simpa using ih bs h.2

theorem ccRun_le_length (ci : Bool) (c : CC) : ∀ r, ccRun ci c r ≤ r.length := by
  intro r
  induction r with
  | nil => simp [ccRun]
  | cons x rs ih =>
    simp only [ccRun]
    by_cases hx : ccMatch ci c x = true
    · rw [if_pos hx]
      simpa using ih
    · rw [if_neg hx]
      simp

theorem take_ccRun_all (ci : Bool) (c : CC) : ∀ r m, m ≤ ccRun ci c r →
    ((r.take m).all (ccMatch ci c)) = true := by
  intro r
  induction r with
  | nil =>
    intro m h
    simp [ccRun] at h
    simp [h]
  | cons x rs ih =>
    intro m h
    cases m with
    | zero => simp
    | succ n =>
      simp only [ccRun] at h
      by_cases hx : ccMatch ci c x = true
      · rw [if_pos hx] at h
        simp only [List.take_succ_cons, List.all_cons, Bool.and_eq_true]
        exact ⟨hx, ih n (Nat.le_of_succ_le_succ h)⟩
      · rw [if_neg hx] at h
        omega

theorem repTry_sound (k : List Char → List Char → Groups → Option MSt)
    (l r : List Char) (g : Groups) (lo : Nat) :
    ∀ n out, repTry k l r g lo n = some out →
      ∃ m, m ≤ n ∧ lo ≤ m ∧ k ((r.take m).reverse ++ l) (r.drop m) g = some out := by
  intro n
  induction n with
  | zero =>
    intro out h
    simp only [repTry] at h
    by_cases hlo : lo = 0
    · rw [if_pos hlo] at h
      exact ⟨0, Nat.le_refl 0, by omega, by simpa using h⟩
    · rw [if_neg hlo] at h
      exact absurd h (by simp)
  | succ n ih =>
    intro out h
    simp only [repTry] at h
    by_cases hlo : lo ≤ n + 1
    · rw [if_pos hlo] at h
      cases hk : k ((r.take (n + 1)).reverse ++ l) (r.drop (n + 1)) g with
      | some o2 =>
        rw [hk] at h
        exact ⟨n + 1, Nat.le_refl _, hlo, by rw [hk]; exact h⟩
      | none =>
        rw [hk] at h
        obtain ⟨m, hm, hlo2, hk2⟩ := ih out h
        exact ⟨m, Nat.le_succ_of_le hm, hlo2, hk2⟩
    · rw [if_neg hlo] at h
      exact absurd h (by simp)

theorem Matches.min_length {ci : Bool} {re : RE} {d : List Char} (h : Matches ci re d) :
    minLenRE re ≤ d.length := by
  induction h with
  | eps => simp [minLenRE]
  | str s d hs => simp [minLenRE, ciEqL_length ci d s hs]
  | cls c x hx => simp [minLenRE]
  | rep c lo hi d hall hlo hhi => simpa [minLenRE] using hlo
  | seq a b d₁ d₂ h1 h2 ih1 ih2 =>
    simp only [minLenRE, List.length_append]
    exact Nat.add_le_add ih1 ih2
  | altA a b d h1 ih =>
    simp only [minLenRE]
    exact Nat.le_trans (Nat.min_le_left _ _) ih
  | altB a b d h1 ih =>
    simp only [minLenRE]
    exact Nat.le_trans (Nat.min_le_right _ _) ih
  | optS a d h1 ih => simp [minLenRE]
  | optN a => simp [minLenRE]
  | grp i a d h1 ih => simpa [minLenRE] using ih
  | wb => simp [minLenRE]
  | la a => simp [minLenRE]
  | lb => simp [minLenRE]
  | eos => simp [minLenRE]

theorem Matches.max_length {ci : Bool} {re : RE} {d : List Char} (h : Matches ci re d) :
    ∀ n, maxLenRE re = some n → d.length ≤ n := by
  induction h with
  | eps => intro n hn; simp [maxLenRE] at hn; simp [hn]
  | str s d hs =>
    intro n hn
    simp only [maxLenRE, Option.some.injEq] at hn
    simp [ciEqL_length ci d s hs, hn]
  | cls c x hx => intro n hn; simp [maxLenRE] at hn; simp [hn]
  | rep c lo hi d hall hlo hhi =>
    intro n hn
    exact hhi n (by simpa [maxLenRE] using hn)
  | seq a b d₁ d₂ h1 h2 ih1 ih2 =>
    intro n hn
    simp only [maxLenRE] at hn
    cases hma : maxLenRE a with
    | none => rw [hma] at hn; simp at hn
    | some x =>
      cases hmb : maxLenRE b with
      | none => rw [hma, hmb] at hn; simp at hn
      | some y =>
        rw [hma, hmb] at hn
        simp only [Option.some.injEq] at hn
        rw [List.length_append, ← hn]
        exact Nat.add_le_add (ih1 x hma) (ih2 y hmb)
  | altA a b d h1 ih =>
    intro n hn
    simp only [maxLenRE] at hn
    cases hma : maxLenRE a with
    | none => rw [hma] at hn; simp at hn
    | some x =>
      cases hmb : maxLenRE b with
      | none => rw [hma, hmb] at hn; simp at hn
      | some y =>
        rw [hma, hmb] at hn
        simp only [Option.some.injEq] at hn
        exact Nat.le_trans (ih x hma) (by omega)
  | altB a b d h1 ih =>
    intro n hn
    simp only [maxLenRE] at hn
    cases hma : maxLenRE a with
    | none => rw [hma] at hn; simp at hn
    | some x =>
      cases hmb : maxLenRE b with
      | none => rw [hma, hmb] at hn; simp at hn
      | some y =>
        rw [hma, hmb] at hn
        simp only [Option.some.injEq] at hn
        exact Nat.le_trans (ih y hmb) (by omega)
  | optS a d h1 ih =>
    intro n hn
    exact ih n (by simpa [maxLenRE] using hn)
  | optN a => intro n hn; simp
  | grp i a d h1 ih =>
    intro n hn
    exact ih n (by simpa [maxLenRE] using hn)
  | wb => intro n hn; simp [maxLenRE] at hn; simp [hn]
  | la a => intro n hn; simp [maxLenRE] at hn; simp [hn]
  | lb => intro n hn; simp [maxLenRE] at hn; simp [hn]
  | eos => intro n hn; simp [maxLenRE] at hn; simp [hn]

theorem ccDigitOnly_isDigit {ci : Bool} {c : CC} {x : Char} (hc : ccDigitOnly c = true)
    (hx : ccMatch ci c x = true) : x.isDigit = true := by
  cases c <;> simp [ccDigitOnly] at hc
  simpa [ccMatch] using hx

theorem Matches.all_digit {ci : Bool} {re : RE} {d : List Char} (h : Matches ci re d) :
    allDigitRE re = true → d.all Char.isDigit = true := by
  induction h with
  | eps => intro _; simp
  | str s d hs => intro hd; simp [allDigitRE] at hd
  | cls c x hx =>
    intro hd
    simp only [allDigitRE] at hd
    simp [ccDigitOnly_isDigit hd hx]
  | rep c lo hi d hall hlo hhi =>
    intro hd
    simp only [allDigitRE] at hd
    rw [List.all_eq_true] at hall ⊢
    exact fun x hx => ccDigitOnly_isDigit hd (hall x hx)
  | seq a b d₁ d₂ h1 h2 ih1 ih2 =>
    intro hd
    simp only [allDigitRE, Bool.and_eq_true] at hd
    simp [List.all_append, ih1 hd.1, ih2 hd.2]
  | altA a b d h1 ih =>
    intro hd
    simp only [allDigitRE, Bool.and_eq_true] at hd
    exact ih hd.1
  | altB a b d h1 ih =>
    intro hd
    simp only [allDigitRE, Bool.and_eq_true] at hd
    exact ih hd.2
  | optS a d h1 ih =>
    intro hd
    exact ih (by simpa [allDigitRE] using hd)
  | optN a => intro _; simp
  | grp i a d h1 ih =>
    intro hd
    exact ih (by simpa [allDigitRE] using hd)
  | wb => intro _; simp
  | la a => intro _; simp
  | lb => intro _; simp
  | eos => intro _; simp

/-! ### Soundness of the matcher -/

theorem reM_sound (ci : Bool) :
    ∀ (re : RE) (l r : List Char) (g : Groups)
      (k : List Char → List Char → Groups → Option MSt) (out : MSt),
      reM ci re l r g k = some out →
      ∃ d r2 gN, r = d ++ r2 ∧ Matches ci re d ∧
        (∀ p ∈ gN, ∃ a, (p.1, a) ∈ groupsOf re ∧ Matches ci a p.2) ∧
        (∀ i ∈ mandG re, ∃ s, (i, s) ∈ gN) ∧
        k (d.reverse ++ l) r2 (gN ++ g) = some out := by
  intro re
  induction re with
  | eps =>
    intro l r g k out h
    exact ⟨[], r, [], by simp, Matches.eps, by simp, by simp [mandG], by simpa [reM] using h⟩
  | str s =>
    intro l r g k out h
    simp only [reM] at h
    by_cases hok : strOk ci s r = true
    · rw [if_pos hok] at h
      exact ⟨r.take s.length, r.drop s.length, [], (List.take_append_drop _ r).symm,
        Matches.str s _ (strOk_take ci s r hok), by simp, by simp [mandG], by simpa using h⟩
    · rw [if_neg hok] at h
      exact absurd h (by simp)
  | cls c =>
    intro l r g k out h
    simp only [reM] at h
    cases r with
    | nil => exact absurd h (by simp)
    | cons x rs =>
      dsimp only at h
      by_cases hx : ccMatch ci c x = true
      · rw [if_pos hx] at h
        exact ⟨[x], rs, [], rfl, Matches.cls c x hx, by simp, by simp [mandG], by simpa using h⟩
      · rw [if_neg hx] at h
        exact absurd h (by simp)
  | rep c lo hi =>
    intro l r g k out h
    simp only [reM] at h
    obtain ⟨m, hm, hlo, hk⟩ := repTry_sound k l r g lo _ out h
    have hmrun : m ≤ ccRun ci c r := by
      cases hi with
      | none => exact hm
      | some hh => exact Nat.le_trans hm (Nat.min_le_left _ _)
    have hlen : (r.take m).length = m := by
      rw [List.length_take]
      exact Nat.min_eq_left (Nat.le_trans hmrun (ccRun_le_length ci c r))
    refine ⟨r.take m, r.drop m, [], (List.take_append_drop _ r).symm, ?_, by simp,
      by simp [mandG], by simpa using hk⟩
    refine Matches.rep c lo hi _ (take_ccRun_all ci c r m hmrun) (by rw [hlen]; exact hlo) ?_
    intro h2 hh2
    rw [hlen]
    subst hh2
    exact Nat.le_trans hm (Nat.min_le_right _ _)
  | seq a b iha ihb =>
    intro l r g k out h
    simp only [reM] at h
    obtain ⟨d1, r1, g1, hr1, hm1, hg1, hmand1, hk1⟩ := iha l r g _ out h
    obtain ⟨d2, r2, g2, hr2, hm2, hg2, hmand2, hk2⟩ :=
      ihb (d1.reverse ++ l) r1 (g1 ++ g) k out hk1
    refine ⟨d1 ++ d2, r2, g2 ++ g1, ?_, Matches.seq a b d1 d2 hm1 hm2, ?_, ?_, ?_⟩
    · rw [hr1, hr2, List.append_assoc]
    · intro p hp
      rcases List.mem_append.mp hp with hp | hp
      · obtain ⟨a2, ha2, hma2⟩ := hg2 p hp
        exact ⟨a2, by simp [groupsOf, ha2], hma2⟩
      · obtain ⟨a2, ha2, hma2⟩ := hg1 p hp
        exact ⟨a2, by simp [groupsOf, ha2], hma2⟩
    · intro i hi
      simp only [mandG, List.mem_append] at hi
      rcases hi with hi | hi
      · obtain ⟨s, hs⟩ := hmand1 i hi
        exact ⟨s, by simp [hs]⟩
      · obtain ⟨s, hs⟩ := hmand2 i hi
        exact ⟨s, by simp [hs]⟩
    · have hrew : (d1 ++ d2).reverse ++ l = d2.reverse ++ (d1.reverse ++ l) := by
        rw [List.reverse_append, List.append_assoc]
      rw [hrew, List.append_assoc]
      exact hk2
  | alt a b iha ihb =>
    intro l r g k out h
    simp only [reM] at h
    cases ha : reM ci a l r g k with
    | some o2 =>
      rw [ha] at h
      obtain ⟨d, r2, gN, hr, hm, hg, hmand, hk⟩ := iha l r g k out (ha.trans h)
      refine ⟨d, r2, gN, hr, Matches.altA a b d hm, ?_, ?_, hk⟩
      · intro p hp
        obtain ⟨a2, ha2, hma2⟩ := hg p hp
        exact ⟨a2, by simp [groupsOf, ha2], hma2⟩
      · intro i hi
        simp only [mandG, List.mem_filter] at hi
        exact hmand i hi.1
    | none =>
      rw [ha] at h
      obtain ⟨d, r2, gN, hr, hm, hg, hmand, hk⟩ := ihb l r g k out h
      refine ⟨d, r2, gN, hr, Matches.altB a b d hm, ?_, ?_, hk⟩
      · intro p hp
        obtain ⟨a2, ha2, hma2⟩ := hg p hp
        exact ⟨a2, by simp [groupsOf, ha2], hma2⟩
      · intro i hi
        simp only [mandG, List.mem_filter] at hi
        exact hmand i (of_decide_eq_true hi.2)
  | opt a iha =>
    intro l r g k out h
    simp only [reM] at h
    cases ha : reM ci a l r g k with
    | some o2 =>
      rw [ha] at h
      obtain ⟨d, r2, gN, hr, hm, hg, hmand, hk⟩ := iha l r g k out (ha.trans h)
      refine ⟨d, r2, gN, hr, Matches.optS a d hm, ?_, ?_, hk⟩
      · intro p hp
        obtain ⟨a2, ha2, hma2⟩ := hg p hp
        exact ⟨a2, by simpa [groupsOf] using ha2, hma2⟩
      · intro i hi
        simp [mandG] at hi
    | none =>
      rw [ha] at h
      exact ⟨[], r, [], by simp, Matches.optN a, by simp, by simp [mandG], by simpa using h⟩
  | grp i a iha =>
    intro l r g k out h
    simp only [reM] at h
    obtain ⟨d, r2, gN, hr, hm, hg, hmand, hk⟩ := iha l r g _ out h
    have hx : ((d.reverse ++ l).take ((d.reverse ++ l).length - l.length)).reverse = d := by
      have h1 : (d.reverse ++ l).length - l.length = d.reverse.length := by
        rw [List.length_append]
        omega
      rw [h1, List.take_left, List.reverse_reverse]
    rw [hx] at hk
    refine ⟨d, r2, (i, d) :: gN, hr, Matches.grp i a d hm, ?_, ?_, ?_⟩
    · intro p hp
      rcases List.mem_cons.mp hp with hp | hp
      · subst hp
        exact ⟨a, by simp [groupsOf], hm⟩
      · obtain ⟨a2, ha2, hma2⟩ := hg p hp
        exact ⟨a2, by simp [groupsOf, ha2], hma2⟩
    · intro j hj
      simp only [mandG, List.mem_cons] at hj
      rcases hj with rfl | hj
      · exact ⟨d, by simp⟩
      · obtain ⟨s, hs⟩ := hmand j hj
        exact ⟨s, by simp [hs]⟩
    · simpa using hk
  | wb =>
    intro l r g k out h
    simp only [reM] at h
    by_cases hw : atWB l r = true
    · rw [if_pos hw] at h
      exact ⟨[], r, [], by simp, Matches.wb, by simp, by simp [mandG], by simpa using h⟩
    · rw [if_neg hw] at h
      exact absurd h (by simp)
  | la a iha =>
    intro l r g k out h
    simp only [reM] at h
    cases ha : reM ci a l r g (fun l2 r2 g2 => some (l2, r2, g2)) with
    | some o2 =>
      rw [ha] at h
      exact ⟨[], r, [], by simp, Matches.la a, by simp, by simp [mandG], by simpa using h⟩
    | none =>
      rw [ha] at h
      exact absurd h (by simp)
  | lbDigit =>
    intro l r g k out h
    simp only [reM] at h
    cases l with
    | nil => exact absurd h (by simp)
    | cons c ls =>
      dsimp only at h
      by_cases hc : c.isDigit = true
      · rw [if_pos hc] at h
        exact ⟨[], r, [], by simp, Matches.lb, by simp, by simp [mandG], by simpa using h⟩
      · rw [if_neg hc] at h
        exact absurd h (by simp)
  | eos =>
    intro l r g k out h
    simp only [reM] at h
    cases r with
    | nil => exact ⟨[], [], [], by simp, Matches.eos, by simp, by simp [mandG], by simpa using h⟩
    | cons c rs => exact absurd h (by simp)

/-! ### Soundness of search, match and group access -/

theorem tryAt_sound (ci : Bool) (re : RE) (l r : List Char) (l2 r2 : List Char) (g : Groups)
    (h : tryAt ci re l r = some (l2, r2, g)) :
    ∃ d, r = d ++ r2 ∧ l2 = d.reverse ++ l ∧ Matches ci re d ∧
      (∀ p ∈ g, ∃ a, (p.1, a) ∈ groupsOf re ∧ Matches ci a p.2) ∧
      (∀ i ∈ mandG re, ∃ s, (i, s) ∈ g) := by
  unfold tryAt at h
  obtain ⟨d, r2x, gN, hr, hm, hg, hmand, hk⟩ := reM_sound ci re l r [] _ _ h
  simp only [List.append_nil, Option.some.injEq, Prod.mk.injEq] at hk
  obtain ⟨h1, h2, h3⟩ := hk
  subst h2
  subst h3
  exact ⟨d, hr, h1.symm, hm, hg, hmand⟩

theorem reSearch_sound (ci : Bool) (re : RE) :
    ∀ (r l l0 l2 r2 : List Char) (g : Groups),
      reSearch ci re l r = some (l0, (l2, r2, g)) →
      ∃ pre d, r = pre ++ d ++ r2 ∧ l0 = pre.reverse ++ l ∧ l2 = d.reverse ++ l0 ∧
        Matches ci re d ∧
        (∀ p ∈ g, ∃ a, (p.1, a) ∈ groupsOf re ∧ Matches ci a p.2) ∧
        (∀ i ∈ mandG re, ∃ s, (i, s) ∈ g) := by
  intro r
  induction r with
  | nil =>
    intro l l0 l2 r2 g h
    simp only [reSearch] at h
    cases htry : tryAt ci re l [] with
    | none =>
      rw [htry] at h
      exact absurd h (by simp)
    | some st =>
      obtain ⟨sl2, sr2, sg⟩ := st
      rw [htry] at h
      simp only [Option.some.injEq, Prod.mk.injEq] at h
      obtain ⟨h1, h2, h3, h4⟩ := h
      subst h1
      subst h2
      subst h3
      subst h4
      obtain ⟨d, hr, hl2, hm, hg, hmand⟩ := tryAt_sound ci re l [] _ _ _ htry
      exact ⟨[], d, by simpa using hr, by simp, hl2, hm, hg, hmand⟩
  | cons c rs ih =>
    intro l l0 l2 r2 g h
    simp only [reSearch] at h
    cases htry : tryAt ci re l (c :: rs) with
    | some st =>
      obtain ⟨sl2, sr2, sg⟩ := st
      rw [htry] at h
      simp only [Option.some.injEq, Prod.mk.injEq] at h
      obtain ⟨h1, h2, h3, h4⟩ := h
      subst h1
      subst h2
      subst h3
      subst h4
      obtain ⟨d, hr, hl2, hm, hg, hmand⟩ := tryAt_sound ci re l (c :: rs) _ _ _ htry
      exact ⟨[], d, by simpa using hr, by simp, hl2, hm, hg, hmand⟩
    | none =>
      rw [htry] at h
      obtain ⟨pre, d, hr, hl0, hl2, hm, hg, hmand⟩ := ih (c :: l) l0 l2 r2 g h
      refine ⟨c :: pre, d, ?_, ?_, hl2, hm, hg, hmand⟩
      · rw [hr]
        simp
      · rw [hl0]
        simp

theorem jsMatch_sound (ci : Bool) (re : RE) (text : List Char) (m : JsMatch)
    (h : jsMatch ci re text = some m) :
    Matches ci re m.m0 ∧
    (∀ p ∈ m.groups, ∃ a, (p.1, a) ∈ groupsOf re ∧ Matches ci a p.2) ∧
    (∀ i ∈ mandG re, ∃ s, (i, s) ∈ m.groups) := by
  unfold jsMatch at h
  cases hs : reSearch ci re [] text with
  | none =>
    rw [hs] at h
    exact absurd h (by simp)
  | some st =>
    obtain ⟨l0, sl2, sr2, sg⟩ := st
    rw [hs] at h
    simp only [Option.some.injEq] at h
    obtain ⟨pre, d, hr, hl0, hl2, hm, hg, hmand⟩ :=
      reSearch_sound ci re text [] l0 sl2 sr2 sg hs
    have hm0 : (sl2.take (sl2.length - l0.length)).reverse = d := by
      rw [hl2]
      have h1 : (d.reverse ++ l0).length - l0.length = d.reverse.length := by
        rw [List.length_append]
        omega
      rw [h1, List.take_left, List.reverse_reverse]
    rw [hm0] at h
    subst h
    exact ⟨hm, hg, hmand⟩

theorem grpD_found {G : List (Nat × RE)} {ci : Bool} (gs : Groups) (i : Nat)
    (hall : ∀ p ∈ gs, ∃ a, (p.1, a) ∈ G ∧ Matches ci a p.2)
    (hex : ∃ s, (i, s) ∈ gs) :
    ∃ a, (i, a) ∈ G ∧ Matches ci a (gFind gs i) := by
  obtain ⟨s, hs⟩ := hex
  have hsome : (gs.find? (fun p => p.1 == i)).isSome := by
    rw [List.find?_isSome]
    exact ⟨(i, s), hs, by simp⟩
  obtain ⟨q, hq⟩ := Option.isSome_iff_exists.mp hsome
  have hqmem := List.mem_of_find?_eq_some hq
  have hqi : q.1 = i := by
    have := List.find?_some hq
    simpa using this
  obtain ⟨a, haG, hma⟩ := hall q hqmem
  rw [hqi] at haG
  refine ⟨a, haG, ?_⟩
  unfold gFind
  rw [hq]
  exact hma

theorem grp_nonempty (ci : Bool) (pat : RE) (text : List Char) (m : JsMatch) (i : Nat)
    (h : jsMatch ci pat text = some m)
    (hmem : decide (i ∈ mandG pat) = true)
    (hb : (groupsOf pat).all (fun p => (p.1 != i) || decide (1 ≤ minLenRE p.2)) = true) :
    grpD m i ≠ [] := by
  obtain ⟨_, hg, hmand⟩ := jsMatch_sound ci pat text m h
  obtain ⟨a, haG, hma⟩ := grpD_found m.groups i hg (hmand i (of_decide_eq_true hmem))
  have hbp := List.all_eq_true.mp hb (i, a) haG
  simp only [bne_self_eq_false, Bool.false_or] at hbp
  have hmin : 1 ≤ minLenRE a := of_decide_eq_true hbp
  have hlen := hma.min_length
  intro hnil
  have hgd : gFind m.groups i = [] := hnil
  rw [hgd] at hlen
  simp at hlen
  omega

theorem grp_digits (ci : Bool) (pat : RE) (text : List Char) (m : JsMatch) (i lo hi : Nat)
    (h : jsMatch ci pat text = some m)
    (hmem : decide (i ∈ mandG pat) = true)
    (hb : (groupsOf pat).all (fun p => (p.1 != i) ||
        (allDigitRE p.2 && decide (lo ≤ minLenRE p.2) && decide (maxLenRE p.2 = some hi)))
      = true) :
    (grpD m i).all Char.isDigit = true ∧ lo ≤ (grpD m i).length ∧ (grpD m i).length ≤ hi := by
  obtain ⟨_, hg, hmand⟩ := jsMatch_sound ci pat text m h
  obtain ⟨a, haG, hma⟩ := grpD_found m.groups i hg (hmand i (of_decide_eq_true hmem))
  have hbp := List.all_eq_true.mp hb (i, a) haG
  simp only [bne_self_eq_false, Bool.false_or, Bool.and_eq_true] at hbp
  obtain ⟨⟨hdig, hlo⟩, hhi⟩ := hbp
  refine ⟨hma.all_digit hdig, ?_, ?_⟩
  · exact Nat.le_trans (of_decide_eq_true hlo) hma.min_length
  · exact hma.max_length hi (of_decide_eq_true hhi)

theorem pad2_spec (s : List Char) (h1 : s.all Char.isDigit = true) (h2 : 1 ≤ s.length)
    (h3 : s.length ≤ 2) : (pad2 s).length = 2 ∧ (pad2 s).all Char.isDigit = true := by
  unfold pad2
  by_cases hl : s.length < 2
  · rw [if_pos hl]
    constructor
    · rw [List.length_append, List.length_replicate]
      omega
    · rw [List.all_append, Bool.and_eq_true]
      refine ⟨?_, h1⟩
      rw [List.all_eq_true]
      intro x hx
      rw [List.eq_of_mem_replicate hx]
      decide
  · rw [if_neg hl]
    exact ⟨by omega, h1⟩

/-! ### Nonempty values of non-medication facts -/

theorem append_ne_nil_left {a b : List Char} (h : a ≠ []) : a ++ b ≠ [] := by
  cases a with
  | nil => exact absurd rfl h
  | cons x xs => simp

theorem bgGroup_ne (m : JsMatch) (h : grpD m 1 ≠ []) : bgGroup m ≠ [] := by
  unfold bgGroup
  split
  · decide
  · simpa using h

theorem mkBgFact_value (ci : Bool) (pat : RE) (text : List Char) (m : JsMatch)
    (h : jsMatch ci pat text = some m)
    (hmem : decide (1 ∈ mandG pat) = true)
    (hb : (groupsOf pat).all (fun p => (p.1 != 1) || decide (1 ≤ minLenRE p.2)) = true) :
    (mkBgFact m).value ≠ [] := by
  have h1 := grp_nonempty ci pat text m 1 h hmem hb
  show bgGroup m ++ bgRh m ≠ []
  exact append_ne_nil_left (bgGroup_ne m h1)

theorem extractBloodGroup_value (text : List Char) (f : MedicalFact)
    (h : extractBloodGroup text = some f) : f.value ≠ [] := by
  unfold extractBloodGroup at h
  cases h1 : jsMatch true bgPat1 text with
  | some m =>
    rw [h1] at h
    simp only [Option.some.injEq] at h
    subst h
    exact mkBgFact_value true bgPat1 text m h1 (by decide) (by decide)
  | none =>
  rw [h1] at h
  cases h2 : jsMatch true bgPat2 text with
  | some m =>
    rw [h2] at h
    simp only [Option.some.injEq] at h
    subst h
    exact mkBgFact_value true bgPat2 text m h2 (by decide) (by decide)
  | none =>
  rw [h2] at h
  cases h3 : jsMatch false bgPat3 text with
  | some m =>
    rw [h3] at h
    simp only [Option.some.injEq] at h
    subst h
    exact mkBgFact_value false bgPat3 text m h3 (by decide) (by decide)
  | none =>
  rw [h3] at h
  cases h4 : jsMatch true bgPat4 text with
  | some m =>
    rw [h4] at h
    simp only [Option.some.injEq] at h
    subst h
    exact mkBgFact_value true bgPat4 text m h4 (by decide) (by decide)
  | none =>
    rw [h4] at h
    exact absurd h (by simp)

theorem mkLabFact_value (e : LabPattern) (he : e ∈ labTable) (text : List Char) (m : JsMatch)
    (h : jsMatch true e.pat text = some m) : (mkLabFact e m).value ≠ [] := by
  have h1 : grpD m 1 ≠ [] := by
    fin_cases he <;>
      exact grp_nonempty true _ text m 1 h (by decide) (by decide)
  show (if e.name = lc "Blood Pressure" ∧ grpD m 2 ≠ [] then
      grpD m 1 ++ lc "/" ++ grpD m 2
    else grpD m 1) ≠ []
  split
  · exact append_ne_nil_left (append_ne_nil_left h1)
  · exact h1

theorem extractMedications_type (text : List Char) (f : MedicalFact)
    (h : f ∈ extractMedications text) : f.type = FactType.medication := by
  unfold extractMedications at h
  rw [List.mem_flatten] at h
  obtain ⟨lst, hlst, hf⟩ := h
  rw [List.mem_map] at hlst
  obtain ⟨p, hp, rfl⟩ := hlst
  rw [List.mem_filterMap] at hf
  obtain ⟨m, hm, hmk⟩ := hf
  unfold mkMedFact at hmk
  split at hmk
  · exact absurd hmk (by simp)
  · simp only [Option.some.injEq] at hmk
    subst hmk
    rfl

/-- C3 amended: in the extraction output of any input, every fact other
than a medication fact has a nonempty value. The blood group and lab
value recognizers capture a mandatory nonempty group; the medication
recognizers may emit a fact whose dosage, hence value, is empty. -/
theorem C3_value_nonempty_unless_medication (text : List Char) (f : MedicalFact)
    (hf : f ∈ (extractMedicalData text).extracted_facts)
    (ht : f.type ≠ FactType.medication) : f.value ≠ [] := by
  have hfacts : (extractMedicalData text).extracted_facts =
      (extractBloodGroup (normalize text)).toList ++
        extractLabValues (normalize text) ++ extractMedications (normalize text) := rfl
  rw [hfacts] at hf
  rcases List.mem_append.mp hf with hf1 | hmed
  · rcases List.mem_append.mp hf1 with hbg | hlab
    · have hsome : extractBloodGroup (normalize text) = some f := by
        cases hopt : extractBloodGroup (normalize text) with
        | none =>
          rw [hopt] at hbg
          simp [Option.toList] at hbg
        | some f2 =>
          rw [hopt] at hbg
          have hfe : f = f2 := by simpa [Option.toList] using hbg
          rw [hfe]
      exact extractBloodGroup_value _ f hsome
    · unfold extractLabValues at hlab
      rw [List.mem_filterMap] at hlab
      obtain ⟨e, he, hmap⟩ := hlab
      cases hjs : jsMatch true e.pat (normalize text) with
      | none =>
        rw [hjs] at hmap
        simp at hmap
      | some m =>
        rw [hjs] at hmap
        simp only [Option.map_some', Option.some.injEq] at hmap
        subst hmap
        exact mkLabFact_value e he _ m hjs
  · exact absurd (extractMedications_type _ f hmed) ht

/-! ### Shape of extracted dates -/

theorem ciEqL_toLower : ∀ d s, ciEqL true d s = true → s.map Char.toLower = s →
    toLowerL d = s := by
  intro d
  induction d with
  | nil =>
    intro s h _
    cases s with
    | nil => rfl
    | cons b bs => simp [ciEqL] at h
  | cons a as ih =>
    intro s h hs
    cases s with
    | nil => simp [ciEqL] at h
    | cons b bs =>
      simp only [ciEqL, Bool.and_eq_true, beq_iff_eq] at h
      simp only [List.map_cons, List.cons.injEq] at hs
      unfold toLowerL
      simp only [List.map_cons, List.cons.injEq]
      constructor
      · have h1 : a.toLower = b.toLower := by simpa [ciChar] using h.1
        rw [h1]
        exact hs.1
      · exact ih bs h.2 hs.2

theorem altL_str_matches : ∀ (ss : List (List Char)) (d : List Char),
    Matches true (altL (ss.map RE.str)) d → ss ≠ [] →
    ∃ s ∈ ss, ciEqL true d s = true := by
  intro ss
  induction ss with
  | nil =>
    intro d _ hne
    exact absurd rfl hne
  | cons s ss ih =>
    intro d h _
    cases ss with
    | nil =>
      cases h with
      | str _ _ hc => exact ⟨s, by simp, hc⟩
    | cons s2 ss2 =>
      cases h with
      | altA _ _ _ h2 =>
        cases h2 with
        | str _ _ hc => exact ⟨s, by simp, hc⟩
      | altB _ _ _ h2 =>
        obtain ⟨s3, hs3, hc⟩ := ih d h2 (by simp)
        exact ⟨s3, by simp [hs3], hc⟩

theorem monthAlt_lookup (d : List Char) (h : Matches true monthAlt d) :
    ∃ v, monthMap.lookup ((toLowerL d).take 3) = some v ∧ v.length = 2 ∧
      v.all Char.isDigit = true := by
  have h2 : Matches true (altL ([lc "jan", lc "feb", lc "mar", lc "apr", lc "may", lc "jun",
      lc "jul", lc "aug", lc "sep", lc "oct", lc "nov", lc "dec"].map RE.str)) d := h
  obtain ⟨s, hs, hc⟩ := altL_str_matches _ d h2 (by simp)
  have htl : toLowerL d = s := ciEqL_toLower d s hc (by fin_cases hs <;> decide)
  rw [htl]
  fin_cases hs <;> exact ⟨_, rfl, by decide, by decide⟩

theorem monthResult_shape (text : List Char) (m : JsMatch) (r : List Char)
    (h : monthResult text m = some r)
    (hydig : (grpD m 2).all Char.isDigit = true) (hylen : (grpD m 2).length = 4)
    (hddig : (grpD m 1).all Char.isDigit = true) (hdlo : 1 ≤ (grpD m 1).length)
    (hdhi : (grpD m 1).length ≤ 2) :
    ∃ y mo d : List Char, r = y ++ lc "-" ++ mo ++ lc "-" ++ d ∧
      y.length = 4 ∧ y.all Char.isDigit = true ∧ mo.length = 2 ∧
      mo.all Char.isDigit = true ∧ d.length = 2 ∧ d.all Char.isDigit = true := by
  unfold monthResult at h
  cases hmm : jsMatch true monthAlt text with
  | none =>
    rw [hmm] at h
    exact absurd h (by simp)
  | some mm =>
    rw [hmm] at h
    simp only [Option.some.injEq] at h
    obtain ⟨hm, _, _⟩ := jsMatch_sound true monthAlt text mm hmm
    obtain ⟨v, hv, hvlen, hvdig⟩ := monthAlt_lookup mm.m0 hm
    obtain ⟨hp1len, hp1dig⟩ := pad2_spec _ hddig hdlo hdhi
    have hne : grpD m 2 ≠ [] := by
      intro hc
      rw [hc] at hylen
      simp at hylen
    refine ⟨grpD m 2, v, pad2 (grpD m 1), ?_, hylen, hydig, hvlen, hvdig, hp1len, hp1dig⟩
    rw [← h]
    simp only [hv]
    unfold jsOr
    rw [if_neg hne]

/-- C4 amended: for every input the extracted date is either null or a
string of shape four digits, dash, two digits, dash, two digits; the
code does not validate the calendar, so the month and day fields are not
range checked. -/
theorem C4_date_shape (text : List Char) :
    extractDate text = none ∨
    ∃ y mo d : List Char, extractDate text = some (y ++ lc "-" ++ mo ++ lc "-" ++ d) ∧
      y.length = 4 ∧ y.all Char.isDigit = true ∧
      mo.length = 2 ∧ mo.all Char.isDigit = true ∧
      d.length = 2 ∧ d.all Char.isDigit = true := by
  unfold extractDate
  split
  next m h1 =>
    right
    obtain ⟨hd1, hl1, hh1⟩ := grp_digits false datePat1 text m 1 1 2 h1 (by decide) (by decide)
    obtain ⟨hd2, hl2, hh2⟩ := grp_digits false datePat1 text m 2 1 2 h1 (by decide) (by decide)
    obtain ⟨hd3, hl3, hh3⟩ := grp_digits false datePat1 text m 3 4 4 h1 (by decide) (by decide)
    obtain ⟨hp2len, hp2dig⟩ := pad2_spec _ hd2 hl2 hh2
    obtain ⟨hp1len, hp1dig⟩ := pad2_spec _ hd1 hl1 hh1
    refine ⟨grpD m 3, pad2 (grpD m 2), pad2 (grpD m 1), ?_, by omega, hd3, hp2len, hp2dig,
      hp1len, hp1dig⟩
    unfold numericResult
    rw [if_neg (by omega)]
  next h1 =>
  split
  next m h2 =>
    right
    obtain ⟨hd1, hl1, hh1⟩ := grp_digits false datePat2 text m 1 4 4 h2 (by decide) (by decide)
    obtain ⟨hd2, hl2, hh2⟩ := grp_digits false datePat2 text m 2 1 2 h2 (by decide) (by decide)
    obtain ⟨hd3, hl3, hh3⟩ := grp_digits false datePat2 text m 3 1 2 h2 (by decide) (by decide)
    obtain ⟨hp2len, hp2dig⟩ := pad2_spec _ hd2 hl2 hh2
    obtain ⟨hp3len, hp3dig⟩ := pad2_spec _ hd3 hl3 hh3
    refine ⟨grpD m 1, pad2 (grpD m 2), pad2 (grpD m 3), ?_, by omega, hd1, hp2len, hp2dig,
      hp3len, hp3dig⟩
    unfold numericResult
    rw [if_pos (by omega)]
  next h2 =>
  split
  next m h3 =>
    split
    next r hmr =>
      right
      obtain ⟨hd2, hl2, hh2⟩ := grp_digits true datePat3 text m 2 4 4 h3 (by decide) (by decide)
      obtain ⟨hd1, hl1, hh1⟩ := grp_digits true datePat3 text m 1 1 2 h3 (by decide) (by decide)
      obtain ⟨y, mo, d, hr, hy1, hy2, hy3, hy4, hy5, hy6⟩ :=
        monthResult_shape text m r hmr hd2 (by omega) hd1 hl1 hh1
      exact ⟨y, mo, d, congrArg some hr, hy1, hy2, hy3, hy4, hy5, hy6⟩
    next hmr =>
      split
      next m2 h4 =>
        obtain ⟨hd2, hl2, hh2⟩ :=
          grp_digits true datePat4 text m2 2 4 4 h4 (by decide) (by decide)
        obtain ⟨hd1, hl1, hh1⟩ :=
          grp_digits true datePat4 text m2 1 1 2 h4 (by decide) (by decide)
        cases hmr2 : monthResult text m2 with
        | some r2 =>
          right
          obtain ⟨y, mo, d, hr, hy1, hy2, hy3, hy4, hy5, hy6⟩ :=
            monthResult_shape text m2 r2 hmr2 hd2 (by omega) hd1 hl1 hh1
          exact ⟨y, mo, d, congrArg some hr, hy1, hy2, hy3, hy4, hy5, hy6⟩
        | none => exact Or.inl rfl
      next h4 => exact Or.inl rfl
  next h3 =>
  split
  next m h4 =>
    obtain ⟨hd2, hl2, hh2⟩ := grp_digits true datePat4 text m 2 4 4 h4 (by decide) (by decide)
    obtain ⟨hd1, hl1, hh1⟩ := grp_digits true datePat4 text m 1 1 2 h4 (by decide) (by decide)
    cases hmr : monthResult text m with
    | some r =>
      right
      obtain ⟨y, mo, d, hr, hy1, hy2, hy3, hy4, hy5, hy6⟩ :=
        monthResult_shape text m r hmr hd2 (by omega) hd1 hl1 hh1
      exact ⟨y, mo, d, congrArg some hr, hy1, hy2, hy3, hy4, hy5, hy6⟩
    | none => exact Or.inl rfl
  next h4 => exact Or.inl rfl

theorem C3_witness :
    hbFixtureFact ∈ (extractMedicalData (lc "Hemoglobin: 13.5 g/dL")).extracted_facts ∧
    hbFixtureFact.value ≠ [] :=
  ⟨by decide, C3_value_nonempty_unless_medication (lc "Hemoglobin: 13.5 g/dL") hbFixtureFact
    (by decide) (by decide)⟩

end MRA
